import Mathlib

/-!
The Bots and Prefetch middlewares of forestnode-io/block.

A shallow embedding of `bots.go` and `prefetch.go`.

* Go strings are Lean strings, compared character by character.
* `http.ResponseWriter` and `http.Handler` are interfaces: what a handler of this
  package does is the sequence of calls it makes on `w` and on other handlers,
  so a handler is modelled by the list of those calls (`http.Call`), in order.
* `time.Now()` reads a clock; the clock is an explicit stream of readings and
  every read consumes one.
* A configuration is a value. For the one field that is a Go slice, the scope
  list of `Prefetch`, `runtime` also gives slices on a heap of backing arrays,
  and the set-up of `Prefetch` is given a second time on that heap.
-/

set_option autoImplicit false
set_option maxRecDepth 1000000

/-! ## Library functions used by the package -/

namespace strings

/-- Go `strings.Index` on character lists: position of the first occurrence of
`substr` at or after offset `i`, or `-1`. The position counts characters, where
Go counts bytes; only its sign is used. -/
def indexFrom (substr : List Char) : List Char → Nat → Int
  | [], i => if substr.isPrefixOf [] then (i : Int) else -1
  | c :: cs, i => if substr.isPrefixOf (c :: cs) then (i : Int) else indexFrom substr cs (i + 1)

/-- Go `strings.Index(s, substr)`, the position counted in characters. -/
def Index (s substr : String) : Int := indexFrom substr.data s.data 0

/-- Go `strings.Contains(s, substr)`, which is `Index(s, substr) >= 0`. -/
def Contains (s substr : String) : Bool := decide (0 ≤ Index s substr)

end strings

namespace http

/-- Go `http.Header`, a map from header name to the list of its values. -/
abbrev Header := List (String × List String)

/-- The map index expression `h[key]`: the values and the `ok` flag, as an option. -/
def Header.index (h : Header) (key : String) : Option (List String) :=
  (h.find? (fun kv => kv.1 == key)).map (fun kv => kv.2)

/-- Go `Header.Get`: the first value stored under `key`, or the empty string. -/
def Header.Get (h : Header) (key : String) : String :=
  match h.index key with
  | some (v :: _) => v
  | _ => ""

/-- Go `http.Cookie`, restricted to the fields read by the package. -/
structure Cookie where
  Name : String
  Value : String
deriving DecidableEq, Repr

/-- Go `http.Request`: its header map and the cookies parsed from it. -/
structure Request where
  Header : Header
  cookies : List Cookie
deriving DecidableEq, Repr

/-- The error values of `Request.Cookie`. -/
inductive Error
  | ErrNoCookie
deriving DecidableEq, Repr

/-- Go `Request.Cookie(name)`: the first cookie of that name, else `ErrNoCookie`. -/
def Request.Cookie (r : Request) (name : String) : Except Error Cookie :=
  if name = "" then Except.error Error.ErrNoCookie
  else
    match r.cookies.find? (fun c => c.Name == name) with
    | some c => Except.ok c
    | none => Except.error Error.ErrNoCookie

/-- One call made by a handler, on its `ResponseWriter` or on another handler. -/
inductive Call (H : Type)
  | HeaderSet (key value : String)
  | WriteHeader (statusCode : Nat)
  | Write (b : String)
  | ServeHTTP (h : H) (r : Request)
deriving DecidableEq, Repr

def StatusOK : Nat := 200

end http

namespace time

/-- A wall-clock instant, in nanoseconds since the Unix epoch. -/
abbrev Time := Int

/-- Go `time.Duration`, a count of nanoseconds. -/
abbrev Duration := Int

/-- The process clock: the readings that successive `time.Now()` calls return. -/
abbrev Clock := Nat → Time

/-- Go `time.Now()`: the next reading, and the clock after it. -/
def Now (k : Clock) : Time × Clock := (k 0, fun n => k (n + 1))

end time

namespace strconv

/-- The two error kinds of `strconv.NumError`. -/
inductive NumError
  | ErrSyntax
  | ErrRange
deriving DecidableEq, Repr

def maxUint64 : Nat := 2 ^ 64 - 1

/-- The digit loop of Go `ParseUint(s, 10, 64)`: `n` is the value read so far. -/
def parseUintLoop : List Char → Nat → Except NumError Nat
  | [], n => Except.ok n
  | c :: cs, n =>
    if '0' ≤ c ∧ c ≤ '9' then
      let d := c.toNat - '0'.toNat
      if maxUint64 / 10 + 1 ≤ n then Except.error NumError.ErrRange
      else
        let n1 := n * 10 + d
        if maxUint64 < n1 then Except.error NumError.ErrRange
        else parseUintLoop cs n1
    else Except.error NumError.ErrSyntax

/-- Go `strconv.ParseUint(s, 10, 64)`. -/
def ParseUint (s : List Char) : Except NumError Nat :=
  match s with
  | [] => Except.error NumError.ErrSyntax
  | _ :: _ => parseUintLoop s 0

/-- Go `strconv.ParseInt(s, 10, 64)`: an optional sign, then decimal digits, the
value within the int64 range. -/
def ParseInt (s : String) : Except NumError Int :=
  match s.data with
  | [] => Except.error NumError.ErrSyntax
  | c :: cs =>
    let neg := decide (c = '-')
    let digits := if c = '+' ∨ c = '-' then cs else c :: cs
    match ParseUint digits with
    | Except.error e => Except.error e
    | Except.ok un =>
      let cutoff : Nat := 2 ^ 63
      if !neg && decide (cutoff ≤ un) then Except.error NumError.ErrRange
      else if neg && decide (cutoff < un) then Except.error NumError.ErrRange
      else Except.ok (if neg then -(un : Int) else (un : Int))

end strconv

/-- A finite float64 value, `num / 2 ^ scale`. -/
structure Float64 where
  num : Int
  scale : Nat
deriving DecidableEq, Repr

namespace Float64

/-- The rational number a float64 value stands for. -/
def toRat (x : Float64) : ℚ := (x.num : ℚ) / 2 ^ x.scale

/-- Nearest integer to `a / b`, ties to even. -/
def roundHalfEven (a b : Nat) : Nat :=
  let q := a / b
  let r := a % b
  if 2 * r < b then q else if b < 2 * r then q + 1 else if q % 2 = 0 then q else q + 1

def log2Fuel : Nat → Nat → Nat
  | 0, _ => 0
  | fuel + 1, n => if n < 2 then 0 else log2Fuel fuel (n / 2) + 1

/-- Floor of the base-2 logarithm of `n` (0 for `n = 0`). -/
def log2 (n : Nat) : Nat := log2Fuel n n

/-- The binade of `a / d`: the floor of its base-2 logarithm. -/
def ilog2 (a d : Nat) : Int :=
  let k : Int := (log2 a : Int) - (log2 d : Int)
  if d * 2 ^ k.toNat ≤ a * 2 ^ (-k).toNat then k else k - 1

/-- The float64 nearest to `n / d`, ties to even: 53 significant bits, the
exponent not below that of the subnormals. Results beyond the largest finite
float64 do not arise from the operands used here and are not modelled. -/
def ofRatio (n : Int) (d : Nat) : Float64 :=
  if n = 0 then ⟨0, 0⟩ else
  let a := n.natAbs
  let e := max (ilog2 a d) (-1022)
  let up := (e - 52).toNat
  let down := (52 - e).toNat
  let m := roundHalfEven (a * 2 ^ down) (d * 2 ^ up)
  ⟨n.sign * ((m * 2 ^ up : Nat) : Int), down⟩

/-- The conversion `float64(x)` of an integer. -/
def ofInt (x : Int) : Float64 := ofRatio x 1

/-- The sum `x + y`, correctly rounded. -/
def add (x y : Float64) : Float64 :=
  ofRatio (x.num * 2 ^ y.scale + y.num * 2 ^ x.scale) (2 ^ (x.scale + y.scale))

/-- The quotient `x / y` for `y` non-zero, correctly rounded. -/
def div (x y : Float64) : Float64 :=
  ofRatio (x.num * 2 ^ y.scale * y.num.sign) (y.num.natAbs * 2 ^ x.scale)

/-- The conversion `int(x)`: the fraction is discarded (truncation towards zero). -/
def toInt (x : Float64) : Int := Int.tdiv x.num (2 ^ x.scale)

end Float64

namespace time

def Second : Duration := 1000000000

def minDuration : Duration := -2 ^ 63

def maxDuration : Duration := 2 ^ 63 - 1

/-- The value of an integer expression as an int64: reduction modulo `2 ^ 64`. -/
def toInt64 (x : Int) : Int := (x + 2 ^ 63) % 2 ^ 64 - 2 ^ 63

/-- Go `time.Unix(sec, nsec)`. -/
def Unix (sec nsec : Int) : Time := sec * 1000000000 + nsec

/-- Go `Time.UnixNano`, an int64. -/
def UnixNano (t : Time) : Int := toInt64 t

/-- Go `Time.Sub` on wall-clock readings: `t - u`, or the largest (smallest)
duration when the difference does not fit. -/
def Sub (t u : Time) : Duration :=
  let d := toInt64 (t - u)
  if u + d = t then d
  else if t < u then minDuration
  else maxDuration

/-- Go `time.Since(t)`, which is `time.Now().Sub(t)`. -/
def Since (t : Time) (k : Clock) : Duration × Clock :=
  (Sub (Now k).1 t, (Now k).2)

/-- Go `Duration.Seconds`: `float64(d / Second) + float64(d % Second) / 1e9`. -/
def Duration.Seconds (d : Duration) : Float64 :=
  let sec := Int.tdiv d Second
  let nsec := Int.tmod d Second
  Float64.add (Float64.ofInt sec) (Float64.div (Float64.ofInt nsec) (Float64.ofInt 1000000000))

end time

namespace fmt

/-- An operand of `Sprintf`. -/
inductive Arg
  | str (s : String)
  | int (i : Int)
deriving DecidableEq, Repr

def digitsFuel : Nat → Nat → List Char → List Char
  | 0, _, acc => acc
  | fuel + 1, n, acc =>
    if n < 10 then Char.ofNat (48 + n) :: acc
    else digitsFuel fuel (n / 10) (Char.ofNat (48 + n % 10) :: acc)

/-- The decimal digits of `n`. -/
def fmtUnsigned (n : Nat) : List Char := digitsFuel (n + 1) n []

/-- The verb `%d` on an integer: decimal, with a minus sign when negative. -/
def fmtInteger (i : Int) : List Char :=
  if i < 0 then '-' :: fmtUnsigned i.natAbs else fmtUnsigned i.natAbs

/-- Go `fmt.Sprintf` for formats made of text, `%s` on a string, `%d` on an
integer and `%%`; `none` for a format or operand list outside that fragment. -/
def sprintfLoop : List Char → List Arg → Option (List Char)
  | [], [] => some []
  | [], _ :: _ => none
  | c :: fs, as =>
    if c = '%' then
      match fs, as with
      | v :: fs1, a :: as1 =>
        if v = '%' then (sprintfLoop fs1 (a :: as1)).map (fun out => '%' :: out)
        else
          match a with
          | Arg.str s =>
            if v = 's' then (sprintfLoop fs1 as1).map (fun out => s.data ++ out) else none
          | Arg.int i =>
            if v = 'd' then (sprintfLoop fs1 as1).map (fun out => fmtInteger i ++ out) else none
      | v :: fs1, [] =>
        if v = '%' then (sprintfLoop fs1 []).map (fun out => '%' :: out) else none
      | [], _ => none
    else (sprintfLoop fs as).map (fun out => c :: out)

def Sprintf (format : String) (a : List Arg) : Option String :=
  (sprintfLoop format.data a).map String.mk

end fmt

namespace http

/-- Go `http.Handler`: a handler function of this package, given by the calls
it makes and its reads of the clock, or a handler value supplied by the caller. -/
inductive Handler (H : Type)
  | HandlerFunc (f : Request → time.Clock → List (Call H) × time.Clock)
  | supplied (h : H)

/-- The calls made by `h.ServeHTTP(w, r)`. Serving a supplied handler is itself
the one observable call. -/
def Handler.ServeHTTP {H : Type} : Handler H → Request → time.Clock → List (Call H) × time.Clock
  | Handler.HandlerFunc f, r, k => f r k
  | Handler.supplied h, r, k => ([Call.ServeHTTP h r], k)

end http

namespace runtime

/-- A Go slice of strings: the backing array it points into, by allocation
number (`none` for a slice of capacity 0, which has no array of its own), its
length and its capacity. -/
structure Slice where
  array : Option Nat
  len : Nat
  cap : Nat
deriving DecidableEq, Repr

/-- The heap: the backing arrays allocated so far, in allocation order. -/
abbrev Heap := List (List String)

/-- The elements of a slice: the first `len` cells of its array. -/
def Slice.elems (s : Slice) (h : Heap) : List String :=
  match s.array with
  | none => []
  | some a => ((h[a]?).getD []).take s.len

/-- Go `append(s, xs...)`. With sufficient capacity the new elements are
written into the array of `s`, after its length; otherwise a new array is
allocated, of the capacity `grow cap needed` chosen by the runtime, and receives
the elements of `s` followed by `xs`. -/
def append (grow : Nat → Nat → Nat) (s : Slice) (xs : List String) (h : Heap) : Slice × Heap :=
  if s.len + xs.length ≤ s.cap then
    match s.array with
    | none => (s, h)
    | some a =>
      ({ s with len := s.len + xs.length },
        h.set a (((h[a]?).getD []).take s.len ++ xs
          ++ ((h[a]?).getD []).drop (s.len + xs.length)))
  else
    ({ array := some h.length, len := s.len + xs.length,
       cap := grow s.cap (s.len + xs.length) },
      h ++ [s.elems h ++ xs
        ++ List.replicate (grow s.cap (s.len + xs.length) - (s.len + xs.length)) ""])

/-- A slice whose array, if any, was allocated at or after allocation `n`, lies
in the heap and has the capacity of the slice. -/
def Slice.OwnedFrom (s : Slice) (h : Heap) (n : Nat) : Prop :=
  match s.array with
  | none => s.len = 0 ∧ s.cap = 0
  | some a => n ≤ a ∧ a < h.length ∧ s.len ≤ s.cap ∧ ((h[a]?).getD []).length = s.cap

end runtime

namespace block

open http

/-- The known User-Agent header values in use by bots / machines. -/
def botHeaders : List String := ["bot", "Bot", "facebookexternalhit"]

/-- Go `isBot`: some header value contains some entry of `botHeaders`. -/
def isBot (headers : List String) : Bool :=
  headers.any (fun header => botHeaders.any (fun botHeader => strings.Contains header botHeader))

structure botsConfig (H : Type) where
  botHandler : Handler H

abbrev BotsOption (H : Type) := botsConfig H → botsConfig H

/-- Go `WithBotHandler`. -/
def WithBotHandler {H : Type} (botHandler : Handler H) : BotsOption H :=
  fun c => { c with botHandler := botHandler }

/-- The configuration `Bots` starts from: the bot handler answers 200 OK. -/
def botsDefault (H : Type) : botsConfig H :=
  { botHandler := Handler.HandlerFunc (fun _ k => ([Call.WriteHeader StatusOK], k)) }

/-- The configuration `Bots` serves with: the options applied in order. -/
def botsConfigOf {H : Type} (o : List (BotsOption H)) : botsConfig H :=
  o.foldl (fun c opt => opt c) (botsDefault H)

/-- Go `Bots`. -/
def Bots {H : Type} (next : Handler H) (o : List (BotsOption H)) : Handler H :=
  let c := botsConfigOf o
  Handler.HandlerFunc (fun r k =>
    match r.Header.index "User-Agent" with
    | some uaHeaders =>
      if isBot uaHeaders then c.botHandler.ServeHTTP r k
      else next.ServeHTTP r k
    | none => next.ServeHTTP r k)

structure prefetchConfig where
  maxAge : time.Duration
  cookieName : String
  userAgents : List String
  path : String
  noCache : Bool
deriving DecidableEq, Repr

abbrev PrefetchOption := prefetchConfig → prefetchConfig

/-- Go `WithMaxAge`. -/
def WithMaxAge (maxAge : time.Duration) : PrefetchOption :=
  fun c => { c with maxAge := maxAge }

/-- Go `WithCookieName`. -/
def WithCookieName (cookieName : String) : PrefetchOption :=
  fun c => { c with cookieName := cookieName }

/-- Go `WithUserAgent`. -/
def WithUserAgent (userAgent : List String) : PrefetchOption :=
  fun c => { c with userAgents := c.userAgents ++ userAgent }

/-- Go `WithPath`. -/
def WithPath (path : String) : PrefetchOption :=
  fun c => { c with path := path }

/-- Go `WithNoCache`. -/
def WithNoCache (noCache : Bool) : PrefetchOption :=
  fun c => { c with noCache := noCache }

/-- The configuration `Prefetch` starts from. -/
def prefetchDefault : prefetchConfig :=
  { maxAge := 1, cookieName := "block-prefetch", userAgents := [], path := "/", noCache := false }

/-- The configuration `Prefetch` serves with: the options applied in order. -/
def prefetchConfigOf (o : List PrefetchOption) : prefetchConfig :=
  o.foldl (fun c opt => opt c) prefetchDefault

def preClientTmplt : String :=
  "<!DOCTYPE html>\n<html>\n<head>\n</head>\n<body>\n<script>\n\tif (document.visibilityState === 'visible') \x7b\n\t\tdocument.cookie = '%s=%d' + '; max-age=%d; path=%s';\n\t\twindow.location.reload();\n\t\x7d\n</script>\n</body>\n</html>"

/-- The body of the confirmation page for a clock reading `now`. A format
outside the modelled fragment of `Sprintf` would give the empty body; the
template is inside it. -/
def preClientPayload (c : prefetchConfig) (now : time.Time) : String :=
  (fmt.Sprintf preClientTmplt
    [fmt.Arg.str c.cookieName,
     fmt.Arg.int (time.UnixNano now),
     fmt.Arg.int (time.Duration.Seconds c.maxAge).toInt,
     fmt.Arg.str c.path]).getD ""

/-- The closure `writePreClient` of `Prefetch`. -/
def writePreClient {H : Type} (c : prefetchConfig) (k : time.Clock) : List (Call H) × time.Clock :=
  ([Call.HeaderSet "Content-Type" "text/html; charset=utf-8"]
      ++ (if c.noCache then [Call.HeaderSet "Cache-Control" "no-cache, no-store, must-revalidate"]
          else [])
      ++ [Call.WriteHeader StatusOK, Call.Write (preClientPayload c (time.Now k).1)],
    (time.Now k).2)

/-- The closure `cookieIsValid` of `Prefetch`; `none` is the nil cookie. -/
def cookieIsValid (c : prefetchConfig) (cookie : Option Cookie) (k : time.Clock) :
    Bool × time.Clock :=
  match cookie with
  | none => (false, k)
  | some cookie =>
    match strconv.ParseInt cookie.Value with
    | Except.error _ => (false, k)
    | Except.ok cv =>
      (decide (c.maxAge < (time.Since (time.Unix 0 cv) k).1), (time.Since (time.Unix 0 cv) k).2)

/-- The closure `applyBlock` of `Prefetch`. -/
def applyBlock (c : prefetchConfig) (userAgent : String) : Bool :=
  if c.userAgents.length = 0 then true
  else c.userAgents.any (fun ua => strings.Contains userAgent ua)

/-- Go `Prefetch`. -/
def Prefetch {H : Type} (next : Handler H) (o : List PrefetchOption) : Handler H :=
  let c := prefetchConfigOf o
  Handler.HandlerFunc (fun r k =>
    let userAgent := r.Header.Get "User-Agent"
    if !applyBlock c userAgent then next.ServeHTTP r k
    else
      match r.Cookie c.cookieName with
      | Except.error _ => writePreClient c k
      | Except.ok cookie =>
        if !(cookieIsValid c (some cookie) k).1 then writePreClient c (cookieIsValid c (some cookie) k).2
        else next.ServeHTTP r (cookieIsValid c (some cookie) k).2)

/-- The closure returned by `Prefetch`, over its configuration `c`. -/
def prefetchHandler {H : Type} (next : Handler H) (c : prefetchConfig) : Handler H :=
  Handler.HandlerFunc (fun r k =>
    let userAgent := r.Header.Get "User-Agent"
    if !applyBlock c userAgent then next.ServeHTTP r k
    else
      match r.Cookie c.cookieName with
      | Except.error _ => writePreClient c k
      | Except.ok cookie =>
        if !(cookieIsValid c (some cookie) k).1 then writePreClient c (cookieIsValid c (some cookie) k).2
        else next.ServeHTTP r (cookieIsValid c (some cookie) k).2)

/-- An option as a caller of `Prefetch` writes it: one of the five exported
constructors applied to its argument. The configuration type is unexported, so
a caller has no other way to make an option. -/
inductive PrefetchOptionExpr
  | WithMaxAge (maxAge : time.Duration)
  | WithCookieName (cookieName : String)
  | WithUserAgent (userAgent : List String)
  | WithPath (path : String)
  | WithNoCache (noCache : Bool)
deriving DecidableEq, Repr

/-- The option that an option expression denotes. -/
def PrefetchOptionExpr.eval : PrefetchOptionExpr → PrefetchOption
  | PrefetchOptionExpr.WithMaxAge maxAge => block.WithMaxAge maxAge
  | PrefetchOptionExpr.WithCookieName cookieName => block.WithCookieName cookieName
  | PrefetchOptionExpr.WithUserAgent userAgent => block.WithUserAgent userAgent
  | PrefetchOptionExpr.WithPath path => block.WithPath path
  | PrefetchOptionExpr.WithNoCache noCache => block.WithNoCache noCache

/-- The argument of an option expression when it is a `WithMaxAge`. -/
def PrefetchOptionExpr.maxAgeArg : PrefetchOptionExpr → Option time.Duration
  | PrefetchOptionExpr.WithMaxAge maxAge => some maxAge
  | _ => none

/-- The argument of an option expression when it is a `WithCookieName`. -/
def PrefetchOptionExpr.cookieNameArg : PrefetchOptionExpr → Option String
  | PrefetchOptionExpr.WithCookieName cookieName => some cookieName
  | _ => none

/-- The arguments of an option expression when it is a `WithUserAgent`. -/
def PrefetchOptionExpr.userAgentArg : PrefetchOptionExpr → Option (List String)
  | PrefetchOptionExpr.WithUserAgent userAgent => some userAgent
  | _ => none

/-- The argument of an option expression when it is a `WithPath`. -/
def PrefetchOptionExpr.pathArg : PrefetchOptionExpr → Option String
  | PrefetchOptionExpr.WithPath path => some path
  | _ => none

/-- The argument of an option expression when it is a `WithNoCache`. -/
def PrefetchOptionExpr.noCacheArg : PrefetchOptionExpr → Option Bool
  | PrefetchOptionExpr.WithNoCache noCache => some noCache
  | _ => none

/-- The struct `prefetchConfig` as it lies in memory: the field `userAgents` is
a slice header, its elements are in the heap. -/
structure prefetchConfigMem where
  maxAge : time.Duration
  cookieName : String
  userAgents : runtime.Slice
  path : String
  noCache : Bool
deriving DecidableEq, Repr

/-- The configuration read from memory. -/
def prefetchConfigMem.load (c : prefetchConfigMem) (h : runtime.Heap) : prefetchConfig :=
  { maxAge := c.maxAge, cookieName := c.cookieName, userAgents := c.userAgents.elems h,
    path := c.path, noCache := c.noCache }

/-- The struct literal `Prefetch` starts from; `[]string{}` has length and
capacity 0. -/
def prefetchDefaultMem : prefetchConfigMem :=
  { maxAge := 1, cookieName := "block-prefetch", userAgents := ⟨none, 0, 0⟩, path := "/",
    noCache := false }

/-- The call `opt(&c)` of an option on the configuration in memory.
`WithUserAgent` is `c.userAgents = append(c.userAgents, userAgent...)`. -/
def PrefetchOptionExpr.run (grow : Nat → Nat → Nat) :
    PrefetchOptionExpr → prefetchConfigMem × runtime.Heap → prefetchConfigMem × runtime.Heap
  | PrefetchOptionExpr.WithMaxAge maxAge, (c, h) => ({ c with maxAge := maxAge }, h)
  | PrefetchOptionExpr.WithCookieName cookieName, (c, h) =>
    ({ c with cookieName := cookieName }, h)
  | PrefetchOptionExpr.WithUserAgent userAgent, (c, h) =>
    ({ c with userAgents := (runtime.append grow c.userAgents userAgent h).1 },
      (runtime.append grow c.userAgents userAgent h).2)
  | PrefetchOptionExpr.WithPath path, (c, h) => ({ c with path := path }, h)
  | PrefetchOptionExpr.WithNoCache noCache, (c, h) => ({ c with noCache := noCache }, h)

/-- The set-up part of `Prefetch` on the heap: a fresh configuration, then the
options in order. -/
def prefetchSetup (grow : Nat → Nat → Nat) (o : List PrefetchOptionExpr) (h : runtime.Heap) :
    prefetchConfigMem × runtime.Heap :=
  o.foldl (fun st opt => opt.run grow st) (prefetchDefaultMem, h)

/-- Serving with an instance of `Prefetch` whose configuration is in memory: the
closure reads its configuration and writes nothing to it. -/
def prefetchServe {H : Type} (next : Handler H) (c : prefetchConfigMem) (h : runtime.Heap)
    (r : Request) (k : time.Clock) : List (Call H) × time.Clock :=
  (prefetchHandler next (c.load h)).ServeHTTP r k

end block


/-! ## Substring search -/

namespace strings

theorem indexFrom_nonneg_iff (substr s : List Char) (i : Nat) :
    0 ≤ indexFrom substr s i ↔ substr <:+: s := by
  induction s generalizing i with
  | nil =>
    by_cases h : substr = []
    · simp [indexFrom, h]
    · simp [indexFrom, h]
  | cons c cs ih =>
    rw [List.infix_cons_iff, indexFrom]
    by_cases h : substr.isPrefixOf (c :: cs) = true
    · rw [if_pos h]
      exact ⟨fun _ => Or.inl (List.isPrefixOf_iff_prefix.1 h), fun _ => Int.ofNat_nonneg i⟩
    · rw [if_neg h, ih]
      constructor
      · exact fun hi => Or.inr hi
      · rintro (hp | hi)
        · exact absurd (List.isPrefixOf_iff_prefix.2 hp) h
        · exact hi

/-- `strings.Contains` decides whether `substr` occurs in `s` as a contiguous,
case-sensitive run of characters. -/
theorem Contains_iff (s substr : String) :
    Contains s substr = true ↔ substr.data <:+: s.data := by
  simp [Contains, Index, indexFrom_nonneg_iff]

theorem Contains_eq_false_iff (s substr : String) :
    Contains s substr = false ↔ ¬ substr.data <:+: s.data := by
  rw [← Contains_iff, Bool.not_eq_true]

end strings

namespace block

open http

/-! ## Bots -/

theorem isBot_iff (headers : List String) :
    isBot headers = true ↔
      ∃ v ∈ headers, ∃ b ∈ botHeaders, b.data <:+: v.data := by
  simp only [isBot, List.any_eq_true, strings.Contains_iff]

theorem isBot_eq_false_iff (headers : List String) :
    isBot headers = false ↔
      ∀ v ∈ headers, ∀ b ∈ botHeaders, ¬ b.data <:+: v.data := by
  rw [← Bool.not_eq_true, isBot_iff]
  push_neg
  rfl

/-- C1: when the request carries User-Agent values of which at least one
contains "bot", "Bot" or "facebookexternalhit", the handler returned by `Bots`
makes exactly the calls of the configured bot handler, whatever the downstream
handler is: the downstream handler is not served. -/
theorem Bots_bot_served {H : Type} (next : Handler H) (o : List (BotsOption H))
    (r : Request) (k : time.Clock) (uaHeaders : List String)
    (hua : r.Header.index "User-Agent" = some uaHeaders)
    (hbot : ∃ v ∈ uaHeaders, "bot".data <:+: v.data ∨ "Bot".data <:+: v.data ∨
      "facebookexternalhit".data <:+: v.data) :
    (Bots next o).ServeHTTP r k = (botsConfigOf o).botHandler.ServeHTTP r k ∧
    ∀ next1 : Handler H, (Bots next1 o).ServeHTTP r k = (Bots next o).ServeHTTP r k := by
  have hb : isBot uaHeaders = true := by
    rw [isBot_iff]
    obtain ⟨v, hv, h⟩ := hbot
    refine ⟨v, hv, ?_⟩
    rcases h with h | h | h
    · exact ⟨"bot", by simp [botHeaders], h⟩
    · exact ⟨"Bot", by simp [botHeaders], h⟩
    · exact ⟨"facebookexternalhit", by simp [botHeaders], h⟩
  have key : ∀ n : Handler H,
      (Bots n o).ServeHTTP r k = (botsConfigOf o).botHandler.ServeHTTP r k := by
    intro n
    simp [Bots, Handler.ServeHTTP, hua, hb]
  exact ⟨key next, fun next1 => (key next1).trans (key next).symm⟩

/-- C1 at a request with User-Agent "Googlebot/2.1", a supplied bot handler and
a supplied downstream handler: the one call made is the serving of the bot
handler. -/
theorem Bots_bot_served_witness :
    (Bots (Handler.supplied "next") [WithBotHandler (Handler.supplied "bots")]).ServeHTTP
        ⟨[("User-Agent", ["Googlebot/2.1"])], []⟩ (fun _ => 0)
      = (botsConfigOf [WithBotHandler (Handler.supplied "bots")]).botHandler.ServeHTTP
        ⟨[("User-Agent", ["Googlebot/2.1"])], []⟩ (fun _ => 0) ∧
    (botsConfigOf [WithBotHandler (Handler.supplied "bots")]).botHandler.ServeHTTP
        ⟨[("User-Agent", ["Googlebot/2.1"])], []⟩ (fun _ => 0)
      = ([Call.ServeHTTP "bots" ⟨[("User-Agent", ["Googlebot/2.1"])], []⟩], fun _ => 0) :=
  ⟨(Bots_bot_served (Handler.supplied "next") [WithBotHandler (Handler.supplied "bots")]
      ⟨[("User-Agent", ["Googlebot/2.1"])], []⟩ (fun _ => 0) ["Googlebot/2.1"] rfl
      ⟨"Googlebot/2.1", by simp, Or.inl ((strings.Contains_iff _ _).1 (by decide))⟩).1,
    rfl⟩

/-- C2: when the request has no User-Agent header, or its list of User-Agent
values is empty, or no value contains "bot", "Bot" or "facebookexternalhit"
(case-sensitively), the handler returned by `Bots` makes exactly the calls of
the downstream handler, whatever the bot handler is: the bot handler is not
served. -/
theorem Bots_next_served {H : Type} (next : Handler H) (o : List (BotsOption H))
    (r : Request) (k : time.Clock)
    (hua : r.Header.index "User-Agent" = none ∨
      r.Header.index "User-Agent" = some [] ∨
      ∃ uaHeaders, r.Header.index "User-Agent" = some uaHeaders ∧
        ∀ v ∈ uaHeaders, ¬ "bot".data <:+: v.data ∧ ¬ "Bot".data <:+: v.data ∧
          ¬ "facebookexternalhit".data <:+: v.data) :
    (Bots next o).ServeHTTP r k = next.ServeHTTP r k ∧
    ∀ o1 : List (BotsOption H), (Bots next o1).ServeHTTP r k = (Bots next o).ServeHTTP r k := by
  have key : ∀ p : List (BotsOption H), (Bots next p).ServeHTTP r k = next.ServeHTTP r k := by
    intro p
    rcases hua with h | h | ⟨uaHeaders, h, hno⟩
    · simp [Bots, Handler.ServeHTTP, h]
    · simp [Bots, Handler.ServeHTTP, h, isBot]
    · have hb : isBot uaHeaders = false := by
        rw [isBot_eq_false_iff]
        intro v hv b hbm
        simp only [botHeaders, List.mem_cons, List.mem_singleton, List.not_mem_nil,
          or_false] at hbm
        rcases hbm with rfl | rfl | rfl
        · exact (hno v hv).1
        · exact (hno v hv).2.1
        · exact (hno v hv).2.2
      simp [Bots, Handler.ServeHTTP, h, hb]
  exact ⟨key o, fun o1 => (key o1).trans (key o).symm⟩

/-- C2 at the single User-Agent value "BOT/1.0": the downstream handler is the
one served. -/
theorem Bots_next_served_witness :
    (Bots (Handler.supplied "next") [WithBotHandler (Handler.supplied "bots")]).ServeHTTP
        ⟨[("User-Agent", ["BOT/1.0"])], []⟩ (fun _ => 0)
      = ([Call.ServeHTTP "next" ⟨[("User-Agent", ["BOT/1.0"])], []⟩], fun _ => 0) :=
  (Bots_next_served (Handler.supplied "next") [WithBotHandler (Handler.supplied "bots")]
    ⟨[("User-Agent", ["BOT/1.0"])], []⟩ (fun _ => 0)
    (Or.inr (Or.inr ⟨["BOT/1.0"], rfl, by
      intro v hv
      rw [List.mem_singleton] at hv
      subst hv
      exact ⟨(strings.Contains_eq_false_iff _ _).1 (by decide),
        (strings.Contains_eq_false_iff _ _).1 (by decide),
        (strings.Contains_eq_false_iff _ _).1 (by decide)⟩⟩))).1

/-! ## Prefetch: the four paths of the handler -/

theorem Prefetch_out_of_scope {H : Type} (next : Handler H) (o : List PrefetchOption)
    (r : Request) (k : time.Clock)
    (hscope : applyBlock (prefetchConfigOf o) (r.Header.Get "User-Agent") = false) :
    (Prefetch next o).ServeHTTP r k = next.ServeHTTP r k := by
  simp [Prefetch, Handler.ServeHTTP, hscope]

theorem Prefetch_no_cookie {H : Type} (next : Handler H) (o : List PrefetchOption)
    (r : Request) (k : time.Clock)
    (hscope : applyBlock (prefetchConfigOf o) (r.Header.Get "User-Agent") = true)
    (e : Error) (hck : r.Cookie (prefetchConfigOf o).cookieName = Except.error e) :
    (Prefetch next o).ServeHTTP r k = writePreClient (prefetchConfigOf o) k := by
  simp [Prefetch, Handler.ServeHTTP, hscope, hck]

theorem Prefetch_unparsable {H : Type} (next : Handler H) (o : List PrefetchOption)
    (r : Request) (k : time.Clock)
    (hscope : applyBlock (prefetchConfigOf o) (r.Header.Get "User-Agent") = true)
    (ck : Cookie) (hck : r.Cookie (prefetchConfigOf o).cookieName = Except.ok ck)
    (e : strconv.NumError) (hparse : strconv.ParseInt ck.Value = Except.error e) :
    (Prefetch next o).ServeHTTP r k = writePreClient (prefetchConfigOf o) k := by
  simp [Prefetch, Handler.ServeHTTP, hscope, hck, cookieIsValid, hparse]

theorem Prefetch_young {H : Type} (next : Handler H) (o : List PrefetchOption)
    (r : Request) (k : time.Clock)
    (hscope : applyBlock (prefetchConfigOf o) (r.Header.Get "User-Agent") = true)
    (ck : Cookie) (hck : r.Cookie (prefetchConfigOf o).cookieName = Except.ok ck)
    (t : Int) (hparse : strconv.ParseInt ck.Value = Except.ok t)
    (hage : ¬ (prefetchConfigOf o).maxAge < (time.Since (time.Unix 0 t) k).1) :
    (Prefetch next o).ServeHTTP r k = writePreClient (prefetchConfigOf o) (time.Now k).2 := by
  simp only [time.Since] at hage
  simp [Prefetch, Handler.ServeHTTP, hscope, hck, cookieIsValid, hparse, hage, time.Since]

theorem Prefetch_old {H : Type} (next : Handler H) (o : List PrefetchOption)
    (r : Request) (k : time.Clock)
    (hscope : applyBlock (prefetchConfigOf o) (r.Header.Get "User-Agent") = true)
    (ck : Cookie) (hck : r.Cookie (prefetchConfigOf o).cookieName = Except.ok ck)
    (t : Int) (hparse : strconv.ParseInt ck.Value = Except.ok t)
    (hage : (prefetchConfigOf o).maxAge < (time.Since (time.Unix 0 t) k).1) :
    (Prefetch next o).ServeHTTP r k = next.ServeHTTP r (time.Now k).2 := by
  simp only [time.Since] at hage
  simp [Prefetch, Handler.ServeHTTP, hscope, hck, cookieIsValid, hparse, hage, time.Since]

/-- The calls of `writePreClient` contain no serving of any handler. -/
theorem writePreClient_no_ServeHTTP {H : Type} (c : prefetchConfig) (k : time.Clock)
    (h : H) (r : Request) : Call.ServeHTTP h r ∉ (writePreClient (H := H) c k).1 := by
  cases hn : c.noCache <;> simp [writePreClient, hn]

/-- `Time.Sub` is the difference clamped to the range of `Duration`. -/
theorem time_Sub_eq_clamp (t u : Int) :
    time.Sub t u = max time.minDuration (min time.maxDuration (t - u)) := by
  unfold time.Sub time.toInt64 time.minDuration time.maxDuration time.Time time.Duration
  simp only [max_def, min_def]
  split_ifs <;> omega

/-! ## Prefetch: the cookie check -/

theorem cookieIsValid_iff (c : prefetchConfig) (cookie : Option Cookie) (k : time.Clock) :
    (cookieIsValid c cookie k).1 = true ↔
      ∃ ck t, cookie = some ck ∧ strconv.ParseInt ck.Value = Except.ok t ∧
        c.maxAge < (time.Since (time.Unix 0 t) k).1 := by
  cases cookie with
  | none => simp [cookieIsValid]
  | some ck =>
    cases hp : strconv.ParseInt ck.Value with
    | error e =>
      simp only [cookieIsValid, hp]
      constructor
      · intro h
        exact absurd h (by simp)
      · rintro ⟨ck1, t, h1, h2, _⟩
        cases h1
        rw [hp] at h2
        cases h2
    | ok t =>
      simp only [cookieIsValid, hp, decide_eq_true_eq]
      constructor
      · intro h
        exact ⟨ck, t, rfl, hp, h⟩
      · rintro ⟨ck1, t1, h1, h2, h3⟩
        cases h1
        rw [hp] at h2
        cases h2
        exact h3

/-- The three ways in which the cookie of a request fails the check: it is
missing, its value does not parse, or the time elapsed since its timestamp does
not exceed the max-age. -/
theorem not_valid_cases (c : prefetchConfig) (r : Request) (k : time.Clock)
    (h : ¬ ∃ ck t, r.Cookie c.cookieName = Except.ok ck ∧
      strconv.ParseInt ck.Value = Except.ok t ∧
      c.maxAge < (time.Since (time.Unix 0 t) k).1) :
    (∃ e, r.Cookie c.cookieName = Except.error e) ∨
    (∃ ck e, r.Cookie c.cookieName = Except.ok ck ∧
      strconv.ParseInt ck.Value = Except.error e) ∨
    (∃ ck t, r.Cookie c.cookieName = Except.ok ck ∧
      strconv.ParseInt ck.Value = Except.ok t ∧
      ¬ c.maxAge < (time.Since (time.Unix 0 t) k).1) := by
  cases hck : r.Cookie c.cookieName with
  | error e => exact Or.inl ⟨e, rfl⟩
  | ok ck =>
    cases hp : strconv.ParseInt ck.Value with
    | error e => exact Or.inr (Or.inl ⟨ck, e, rfl, hp⟩)
    | ok t =>
      refine Or.inr (Or.inr ⟨ck, t, rfl, hp, fun hlt => h ⟨ck, t, hck, hp, hlt⟩⟩)

/-- C3: for every option list, clock and in-scope request, the cookie check
succeeds exactly when the cookie of the configured name exists, its value parses
as a base-10 integer `t`, and the time elapsed since `t` (`time.Since`) strictly
exceeds the configured max-age. Then the calls are those of the downstream
handler. Otherwise the calls are: Content-Type set to text/html; charset=utf-8,
Cache-Control set when configured, status 200 written, and the confirmation page
written as the body, the template filled with the cookie name, a clock reading,
the max-age in seconds and the path. -/
theorem Prefetch_cookie_valid_iff {H : Type} (next : Handler H) (o : List PrefetchOption)
    (r : Request) (k : time.Clock)
    (hscope : applyBlock (prefetchConfigOf o) (r.Header.Get "User-Agent") = true) :
    (∀ cookie : Option Cookie, (cookieIsValid (prefetchConfigOf o) cookie k).1 = true ↔
        ∃ ck t, cookie = some ck ∧ strconv.ParseInt ck.Value = Except.ok t ∧
          (prefetchConfigOf o).maxAge < (time.Since (time.Unix 0 t) k).1) ∧
    ((∃ ck t, r.Cookie (prefetchConfigOf o).cookieName = Except.ok ck ∧
          strconv.ParseInt ck.Value = Except.ok t ∧
          (prefetchConfigOf o).maxAge < (time.Since (time.Unix 0 t) k).1) →
        (Prefetch next o).ServeHTTP r k = next.ServeHTTP r (time.Now k).2) ∧
    ((¬ ∃ ck t, r.Cookie (prefetchConfigOf o).cookieName = Except.ok ck ∧
          strconv.ParseInt ck.Value = Except.ok t ∧
          (prefetchConfigOf o).maxAge < (time.Since (time.Unix 0 t) k).1) →
        ∃ now, (now = k 0 ∨ now = k 1) ∧
          ((Prefetch next o).ServeHTTP r k).1 =
          [Call.HeaderSet "Content-Type" "text/html; charset=utf-8"]
            ++ (if (prefetchConfigOf o).noCache
                then [Call.HeaderSet "Cache-Control" "no-cache, no-store, must-revalidate"]
                else [])
            ++ [Call.WriteHeader 200,
                Call.Write (String.mk
                  ("<!DOCTYPE html>\n<html>\n<head>\n</head>\n<body>\n<script>\n\tif (document.visibilityState === 'visible') \x7b\n\t\tdocument.cookie = '".data
                    ++ (prefetchConfigOf o).cookieName.data ++ "=".data ++ fmt.fmtInteger (time.UnixNano now)
                    ++ "' + '; max-age=".data ++ fmt.fmtInteger (time.Duration.Seconds (prefetchConfigOf o).maxAge).toInt
                    ++ "; path=".data ++ (prefetchConfigOf o).path.data
                    ++ "';\n\t\twindow.location.reload();\n\t\x7d\n</script>\n</body>\n</html>".data))]) ∧
    ((¬ ∃ ck t, r.Cookie (prefetchConfigOf o).cookieName = Except.ok ck ∧
          strconv.ParseInt ck.Value = Except.ok t ∧
          (prefetchConfigOf o).maxAge < (time.Since (time.Unix 0 t) k).1) →
        (Prefetch next o).ServeHTTP r k = writePreClient (prefetchConfigOf o) k ∨
        (Prefetch next o).ServeHTTP r k
          = writePreClient (prefetchConfigOf o) (time.Now k).2) := by
  have hpage : (¬ ∃ ck t, r.Cookie (prefetchConfigOf o).cookieName = Except.ok ck ∧
          strconv.ParseInt ck.Value = Except.ok t ∧
          (prefetchConfigOf o).maxAge < (time.Since (time.Unix 0 t) k).1) →
      (Prefetch next o).ServeHTTP r k = writePreClient (prefetchConfigOf o) k ∨
      (Prefetch next o).ServeHTTP r k
        = writePreClient (prefetchConfigOf o) (time.Now k).2 := by
    intro h
    rcases not_valid_cases _ r k h with ⟨e, hck⟩ | ⟨ck, e, hck, hp⟩ | ⟨ck, t, hck, hp, hage⟩
    · exact Or.inl (Prefetch_no_cookie next o r k hscope e hck)
    · exact Or.inl (Prefetch_unparsable next o r k hscope ck hck e hp)
    · exact Or.inr (Prefetch_young next o r k hscope ck hck t hp hage)
  refine ⟨fun cookie => cookieIsValid_iff _ cookie k, ?_, ?_, hpage⟩
  · rintro ⟨ck, t, hck, hp, hage⟩
    exact Prefetch_old next o r k hscope ck hck t hp hage
  · intro h
    rcases hpage h with h1 | h1
    · refine ⟨k 0, Or.inl rfl, ?_⟩
      rw [h1]
      simp only [List.append_assoc]
      rfl
    · refine ⟨k 1, Or.inr rfl, ?_⟩
      rw [h1]
      simp only [List.append_assoc]
      rfl

/-- C3 with max-age one second and the cookie value "0": at the clock reading
1000000001 ns (elapsed time above one second) the one call is the serving of the
downstream handler; at the reading 1000000000 ns (elapsed time exactly one
second) the calls are those of the confirmation page, which sets block-prefetch
to 1000000000 with max-age=1 and path=/; and so they are, evaluating the handler,
at the reading 999999999 ns. -/
theorem Prefetch_cookie_valid_iff_witness :
    ((Prefetch (Handler.supplied "next") [WithMaxAge time.Second]).ServeHTTP
        ⟨[], [⟨"block-prefetch", "0"⟩]⟩ (fun _ => 1000000001)).1
      = [Call.ServeHTTP "next" ⟨[], [⟨"block-prefetch", "0"⟩]⟩] ∧
    ((Prefetch (Handler.supplied "next") [WithMaxAge time.Second]).ServeHTTP
        ⟨[], [⟨"block-prefetch", "0"⟩]⟩ (fun _ => 1000000000)).1
      = [Call.HeaderSet "Content-Type" "text/html; charset=utf-8", Call.WriteHeader 200,
          Call.Write
            "<!DOCTYPE html>\n<html>\n<head>\n</head>\n<body>\n<script>\n\tif (document.visibilityState === 'visible') \x7b\n\t\tdocument.cookie = 'block-prefetch=1000000000' + '; max-age=1; path=/';\n\t\twindow.location.reload();\n\t\x7d\n</script>\n</body>\n</html>"] ∧
    ((Prefetch (Handler.supplied "next") [WithMaxAge time.Second]).ServeHTTP
        ⟨[], [⟨"block-prefetch", "0"⟩]⟩ (fun _ => 999999999)).1
      = [Call.HeaderSet "Content-Type" "text/html; charset=utf-8", Call.WriteHeader 200,
          Call.Write
            "<!DOCTYPE html>\n<html>\n<head>\n</head>\n<body>\n<script>\n\tif (document.visibilityState === 'visible') \x7b\n\t\tdocument.cookie = 'block-prefetch=999999999' + '; max-age=1; path=/';\n\t\twindow.location.reload();\n\t\x7d\n</script>\n</body>\n</html>"] := by
  refine ⟨?_, ?_, by decide⟩
  · rw [(Prefetch_cookie_valid_iff (Handler.supplied "next") [WithMaxAge time.Second]
      ⟨[], [⟨"block-prefetch", "0"⟩]⟩ (fun _ => 1000000001) rfl).2.1
      ⟨⟨"block-prefetch", "0"⟩, 0, rfl, rfl, by decide⟩]
    rfl
  · obtain ⟨now, hnow, hcalls⟩ :=
      (Prefetch_cookie_valid_iff (Handler.supplied "next") [WithMaxAge time.Second]
        ⟨[], [⟨"block-prefetch", "0"⟩]⟩ (fun _ => 1000000000) rfl).2.2.1
        (by
          rintro ⟨ck, t, hck, hp, hage⟩
          have h1 : ck = ⟨"block-prefetch", "0"⟩ := by
            have : (Except.ok ⟨"block-prefetch", "0"⟩ : Except Error Cookie) = Except.ok ck := hck
            cases this
            rfl
          subst h1
          have h2 : t = 0 := by
            have : (Except.ok 0 : Except strconv.NumError Int) = Except.ok t := hp
            cases this
            rfl
          subst h2
          revert hage
          decide)
    have hn : now = 1000000000 := by
      rcases hnow with h | h <;> exact h
    rw [hcalls, hn]
    decide

/-- C4: for every in-scope request whose cookie is missing, unparsable or fails
the age test, the handler sets Content-Type to text/html; charset=utf-8 (and
Cache-Control when configured), writes status 200 and writes as the body the
confirmation page: the template filled with the cookie name, the current clock
reading, the max-age in seconds and the path; it serves no handler. -/
theorem Prefetch_invalid_page {H : Type} (next : Handler H) (o : List PrefetchOption)
    (r : Request) (k : time.Clock)
    (hscope : applyBlock (prefetchConfigOf o) (r.Header.Get "User-Agent") = true)
    (hinv : (∃ e, r.Cookie (prefetchConfigOf o).cookieName = Except.error e) ∨
      (∃ ck e, r.Cookie (prefetchConfigOf o).cookieName = Except.ok ck ∧
        strconv.ParseInt ck.Value = Except.error e) ∨
      (∃ ck t, r.Cookie (prefetchConfigOf o).cookieName = Except.ok ck ∧
        strconv.ParseInt ck.Value = Except.ok t ∧
        ¬ (prefetchConfigOf o).maxAge < (time.Since (time.Unix 0 t) k).1)) :
    (∃ now, (now = k 0 ∨ now = k 1) ∧
      ((Prefetch next o).ServeHTTP r k).1 =
          [Call.HeaderSet "Content-Type" "text/html; charset=utf-8"]
            ++ (if (prefetchConfigOf o).noCache
                then [Call.HeaderSet "Cache-Control" "no-cache, no-store, must-revalidate"]
                else [])
            ++ [Call.WriteHeader 200,
                Call.Write (String.mk
                  ("<!DOCTYPE html>\n<html>\n<head>\n</head>\n<body>\n<script>\n\tif (document.visibilityState === 'visible') \x7b\n\t\tdocument.cookie = '".data
                    ++ (prefetchConfigOf o).cookieName.data ++ "=".data ++ fmt.fmtInteger (time.UnixNano now)
                    ++ "' + '; max-age=".data ++ fmt.fmtInteger (time.Duration.Seconds (prefetchConfigOf o).maxAge).toInt
                    ++ "; path=".data ++ (prefetchConfigOf o).path.data
                    ++ "';\n\t\twindow.location.reload();\n\t\x7d\n</script>\n</body>\n</html>".data))]) ∧
    ∀ (h : H) (r1 : Request), Call.ServeHTTP h r1 ∉ ((Prefetch next o).ServeHTTP r k).1 := by
  rcases hinv with ⟨e, hck⟩ | ⟨ck, e, hck, hp⟩ | ⟨ck, t, hck, hp, hage⟩
  · rw [Prefetch_no_cookie next o r k hscope e hck]
    refine ⟨⟨k 0, Or.inl rfl, ?_⟩, fun h r1 => writePreClient_no_ServeHTTP _ _ h r1⟩
    simp only [List.append_assoc]
    rfl
  · rw [Prefetch_unparsable next o r k hscope ck hck e hp]
    refine ⟨⟨k 0, Or.inl rfl, ?_⟩, fun h r1 => writePreClient_no_ServeHTTP _ _ h r1⟩
    simp only [List.append_assoc]
    rfl
  · rw [Prefetch_young next o r k hscope ck hck t hp hage]
    refine ⟨⟨k 1, Or.inr rfl, ?_⟩, fun h r1 => writePreClient_no_ServeHTTP _ _ h r1⟩
    simp only [List.append_assoc]
    rfl

/-- C4 at a request without cookies, under the default configuration and with
the clock at 1000 ns: the body is the page that sets block-prefetch to 1000 with
max-age=0 and path=/. Evaluating the handler with cookie name "c", max-age 5 s,
path "/x" and no-cache, on the unparsable cookie value "abc" at 2000 ns, gives
the page that sets c to 2000 with max-age=5 and path=/x, after both headers. -/
theorem Prefetch_invalid_page_witness :
    ((Prefetch (Handler.supplied "next") []).ServeHTTP ⟨[], []⟩ (fun _ => 1000)).1 =
      [Call.HeaderSet "Content-Type" "text/html; charset=utf-8", Call.WriteHeader 200,
        Call.Write
          "<!DOCTYPE html>\n<html>\n<head>\n</head>\n<body>\n<script>\n\tif (document.visibilityState === 'visible') \x7b\n\t\tdocument.cookie = 'block-prefetch=1000' + '; max-age=0; path=/';\n\t\twindow.location.reload();\n\t\x7d\n</script>\n</body>\n</html>"] ∧
    ((Prefetch (Handler.supplied "next")
        [WithCookieName "c", WithMaxAge 5000000000, WithPath "/x", WithNoCache true]).ServeHTTP
        ⟨[], [⟨"c", "abc"⟩]⟩ (fun _ => 2000)).1 =
      [Call.HeaderSet "Content-Type" "text/html; charset=utf-8",
        Call.HeaderSet "Cache-Control" "no-cache, no-store, must-revalidate",
        Call.WriteHeader 200,
        Call.Write
          "<!DOCTYPE html>\n<html>\n<head>\n</head>\n<body>\n<script>\n\tif (document.visibilityState === 'visible') \x7b\n\t\tdocument.cookie = 'c=2000' + '; max-age=5; path=/x';\n\t\twindow.location.reload();\n\t\x7d\n</script>\n</body>\n</html>"] := by
  refine ⟨?_, by decide⟩
  obtain ⟨now, hnow, hcalls⟩ :=
    (Prefetch_invalid_page (Handler.supplied "next") [] ⟨[], []⟩ (fun _ => 1000) rfl
      (Or.inl ⟨Error.ErrNoCookie, rfl⟩)).1
  have h1000 : now = 1000 := by
    rcases hnow with h | h <;> exact h
  rw [hcalls, h1000]
  decide

/-! ## Prefetch: the scope -/

theorem applyBlock_iff (c : prefetchConfig) (hne : c.userAgents ≠ []) (ua : String) :
    applyBlock c ua = true ↔ ∃ s ∈ c.userAgents, s.data <:+: ua.data := by
  have hlen : ¬ c.userAgents.length = 0 := by
    simpa [List.length_eq_zero] using hne
  simp only [applyBlock, if_neg hlen, List.any_eq_true, strings.Contains_iff]

/-- C5: with a non-empty scope list a request is in scope exactly when its
User-Agent contains one of the listed strings, and a request out of scope is
handed to the downstream handler, with no read of the clock, whatever its
cookies are. -/
theorem Prefetch_scoped {H : Type} (next : Handler H) (o : List PrefetchOption)
    (hne : (prefetchConfigOf o).userAgents ≠ []) :
    (∀ ua : String, applyBlock (prefetchConfigOf o) ua = true ↔
        ∃ s ∈ (prefetchConfigOf o).userAgents, s.data <:+: ua.data) ∧
    (∀ (r : Request) (k : time.Clock),
        (¬ ∃ s ∈ (prefetchConfigOf o).userAgents,
            s.data <:+: (r.Header.Get "User-Agent").data) →
        (Prefetch next o).ServeHTTP r k = next.ServeHTTP r k) := by
  refine ⟨fun ua => applyBlock_iff _ hne ua, fun r k hout => ?_⟩
  apply Prefetch_out_of_scope
  rw [← Bool.not_eq_true, applyBlock_iff _ hne]
  exact hout

/-- C5 with scope ["Chrome"]: the User-Agent "Mozilla/5.0 Chrome/100" is in
scope, and a request with User-Agent "Safari/1.0" goes to the downstream
handler although it carries no valid cookie. -/
theorem Prefetch_scoped_witness :
    applyBlock (prefetchConfigOf [WithUserAgent ["Chrome"]]) "Mozilla/5.0 Chrome/100" = true ∧
    (Prefetch (Handler.supplied "next") [WithUserAgent ["Chrome"]]).ServeHTTP
        ⟨[("User-Agent", ["Safari/1.0"])], [⟨"block-prefetch", "abc"⟩]⟩ (fun _ => 7)
      = ([Call.ServeHTTP "next"
          ⟨[("User-Agent", ["Safari/1.0"])], [⟨"block-prefetch", "abc"⟩]⟩], fun _ => 7) :=
  ⟨((Prefetch_scoped (Handler.supplied "next") [WithUserAgent ["Chrome"]] (by decide)).1
      "Mozilla/5.0 Chrome/100").2
      ⟨"Chrome", by simp [prefetchConfigOf, WithUserAgent, prefetchDefault],
        (strings.Contains_iff _ _).1 (by decide)⟩,
   (Prefetch_scoped (Handler.supplied "next") [WithUserAgent ["Chrome"]] (by decide)).2
      ⟨[("User-Agent", ["Safari/1.0"])], [⟨"block-prefetch", "abc"⟩]⟩ (fun _ => 7)
      (by
        rintro ⟨s, hs, hin⟩
        have hs1 : s = "Chrome" := by
          simpa [prefetchConfigOf, WithUserAgent, prefetchDefault] using hs
        subst hs1
        exact absurd ((strings.Contains_iff "Safari/1.0" "Chrome").2 hin) (by decide))⟩

/-- C6: with an empty scope list every User-Agent value is in scope, the empty
string of an absent header included, and for every request the cookie alone
decides between the downstream handler and the confirmation page. -/
theorem Prefetch_unscoped {H : Type} (next : Handler H) (o : List PrefetchOption)
    (hempty : (prefetchConfigOf o).userAgents = []) :
    (∀ ua : String, applyBlock (prefetchConfigOf o) ua = true) ∧
    (∀ (r : Request) (k : time.Clock),
      ((∃ ck t, r.Cookie (prefetchConfigOf o).cookieName = Except.ok ck ∧
          strconv.ParseInt ck.Value = Except.ok t ∧
          (prefetchConfigOf o).maxAge < (time.Since (time.Unix 0 t) k).1) →
        (Prefetch next o).ServeHTTP r k = next.ServeHTTP r (time.Now k).2) ∧
      ((¬ ∃ ck t, r.Cookie (prefetchConfigOf o).cookieName = Except.ok ck ∧
          strconv.ParseInt ck.Value = Except.ok t ∧
          (prefetchConfigOf o).maxAge < (time.Since (time.Unix 0 t) k).1) →
        (Prefetch next o).ServeHTTP r k = writePreClient (prefetchConfigOf o) k ∨
        (Prefetch next o).ServeHTTP r k
          = writePreClient (prefetchConfigOf o) (time.Now k).2)) := by
  have hall : ∀ ua : String, applyBlock (prefetchConfigOf o) ua = true := by
    intro ua
    simp [applyBlock, hempty]
  refine ⟨hall, fun r k => ⟨?_, ?_⟩⟩
  · rintro ⟨ck, t, hck, hp, hage⟩
    exact Prefetch_old next o r k (hall _) ck hck t hp hage
  · intro h
    rcases not_valid_cases _ r k h with ⟨e, hck⟩ | ⟨ck, e, hck, hp⟩ | ⟨ck, t, hck, hp, hage⟩
    · exact Or.inl (Prefetch_no_cookie next o r k (hall _) e hck)
    · exact Or.inl (Prefetch_unparsable next o r k (hall _) ck hck e hp)
    · exact Or.inr (Prefetch_young next o r k (hall _) ck hck t hp hage)

/-- C6 under the default configuration: the empty User-Agent is in scope, and a
request with an empty User-Agent value and a cookie old enough is handed to the
downstream handler. -/
theorem Prefetch_unscoped_witness :
    applyBlock (prefetchConfigOf []) "" = true ∧
    (Prefetch (Handler.supplied "next") []).ServeHTTP
        ⟨[("User-Agent", [""])], [⟨"block-prefetch", "5"⟩]⟩ (fun _ => 7)
      = (Handler.supplied "next").ServeHTTP
          ⟨[("User-Agent", [""])], [⟨"block-prefetch", "5"⟩]⟩ (time.Now (fun _ => 7)).2 :=
  ⟨(Prefetch_unscoped (Handler.supplied "next") [] rfl).1 "",
   ((Prefetch_unscoped (Handler.supplied "next") [] rfl).2
      ⟨[("User-Agent", [""])], [⟨"block-prefetch", "5"⟩]⟩ (fun _ => 7)).1
      ⟨⟨"block-prefetch", "5"⟩, 5, rfl, rfl, by decide⟩⟩

/-- C7: for every in-scope request with a valid cookie the handler makes exactly
the calls of the downstream handler on the same request; when that handler is a
supplied one, the serving of it is the only call: no header, status or body is
written by the guard. -/
theorem Prefetch_valid_downstream {H : Type} (next : Handler H) (o : List PrefetchOption)
    (r : Request) (k : time.Clock)
    (hscope : applyBlock (prefetchConfigOf o) (r.Header.Get "User-Agent") = true)
    (hvalid : ∃ ck t, r.Cookie (prefetchConfigOf o).cookieName = Except.ok ck ∧
      strconv.ParseInt ck.Value = Except.ok t ∧
      (prefetchConfigOf o).maxAge < (time.Since (time.Unix 0 t) k).1) :
    (Prefetch next o).ServeHTTP r k = next.ServeHTTP r (time.Now k).2 ∧
    ∀ h : H, next = Handler.supplied h →
      ((Prefetch next o).ServeHTTP r k).1 = [Call.ServeHTTP h r] := by
  obtain ⟨ck, t, hck, hp, hage⟩ := hvalid
  have key := Prefetch_old next o r k hscope ck hck t hp hage
  refine ⟨key, fun h hn => ?_⟩
  rw [key, hn]
  rfl

/-- C7 under a five second max-age, with a cookie set at 1 s and the clock at
10 s. -/
theorem Prefetch_valid_downstream_witness :
    ((Prefetch (Handler.supplied "next") [WithMaxAge 5000000000]).ServeHTTP
        ⟨[("User-Agent", ["Mozilla/5.0"])], [⟨"block-prefetch", "1000000000"⟩]⟩
        (fun _ => 10000000000)).1
      = [Call.ServeHTTP "next"
          ⟨[("User-Agent", ["Mozilla/5.0"])], [⟨"block-prefetch", "1000000000"⟩]⟩] :=
  (Prefetch_valid_downstream (Handler.supplied "next") [WithMaxAge 5000000000]
    ⟨[("User-Agent", ["Mozilla/5.0"])], [⟨"block-prefetch", "1000000000"⟩]⟩
    (fun _ => 10000000000) rfl
    ⟨⟨"block-prefetch", "1000000000"⟩, 1000000000, rfl, rfl, by decide⟩).2 "next" rfl

/-! ## Prefetch: a cookie that does not parse -/

theorem Cookie_filter_ne (r : Request) (name : String) :
    Request.Cookie { r with cookies := r.cookies.filter (fun x => x.Name != name) } name
      = Except.error Error.ErrNoCookie := by
  unfold Request.Cookie
  by_cases hn : name = ""
  · simp [hn]
  · have hfind : List.find? (fun c : Cookie => c.Name == name)
        (r.cookies.filter (fun x => x.Name != name)) = none := by
      rw [List.find?_eq_none]
      intro x hx
      rw [List.mem_filter] at hx
      simpa using hx.2
    simp [hn, hfind]

/-- C8: an in-scope request whose cookie has a value that fails integer
parsing gets the calls and the clock reads of the same request with the cookies
of that name removed: the confirmation page, written by `writePreClient`, with
no handler served. -/
theorem Prefetch_unparsable_as_missing {H : Type} (next : Handler H)
    (o : List PrefetchOption) (r : Request) (k : time.Clock)
    (hscope : applyBlock (prefetchConfigOf o) (r.Header.Get "User-Agent") = true)
    (ck : Cookie) (hck : r.Cookie (prefetchConfigOf o).cookieName = Except.ok ck)
    (e : strconv.NumError) (hparse : strconv.ParseInt ck.Value = Except.error e) :
    (Prefetch next o).ServeHTTP r k
      = (Prefetch next o).ServeHTTP
          { r with cookies :=
              r.cookies.filter (fun x => x.Name != (prefetchConfigOf o).cookieName) } k ∧
    (Prefetch next o).ServeHTTP r k = writePreClient (prefetchConfigOf o) k ∧
    ∀ (h : H) (r1 : Request), Call.ServeHTTP h r1 ∉ ((Prefetch next o).ServeHTTP r k).1 := by
  have h1 := Prefetch_unparsable next o r k hscope ck hck e hparse
  have h2 := Prefetch_no_cookie next o
    { r with cookies := r.cookies.filter (fun x => x.Name != (prefetchConfigOf o).cookieName) }
    k hscope Error.ErrNoCookie (Cookie_filter_ne r _)
  refine ⟨h1.trans h2.symm, h1, fun h r1 => ?_⟩
  rw [h1]
  exact writePreClient_no_ServeHTTP _ _ h r1

/-- C8 at the cookie value "abc". -/
theorem Prefetch_unparsable_as_missing_witness :
    (Prefetch (Handler.supplied "next") []).ServeHTTP
        ⟨[], [⟨"other", "1"⟩, ⟨"block-prefetch", "abc"⟩]⟩ (fun _ => 1000)
      = (Prefetch (Handler.supplied "next") []).ServeHTTP ⟨[], [⟨"other", "1"⟩]⟩
          (fun _ => 1000) :=
  (Prefetch_unparsable_as_missing (Handler.supplied "next") []
    ⟨[], [⟨"other", "1"⟩, ⟨"block-prefetch", "abc"⟩]⟩ (fun _ => 1000) rfl
    ⟨"block-prefetch", "abc"⟩ rfl strconv.NumError.ErrSyntax rfl).1

/-! ## Prefetch: the confirmation page -/

/-- C9: for every cookie name `n`, timestamp `t`, max-age `s` and path `p`,
`Sprintf` on the template gives the fixed page in which, under the test
document.visibilityState === 'visible', document.cookie is assigned
'n=t' + '; max-age=s; path=p'; the body written by the handler is that page for
the configured name, the clock reading, the configured max-age in seconds and
the configured path; and for "c", 1000, 5 and "/x" the page contains
document.cookie = 'c=1000' + '; max-age=5; path=/x'. -/
theorem preClient_page (n : String) (t s : Int) (p : String) :
    fmt.Sprintf preClientTmplt [fmt.Arg.str n, fmt.Arg.int t, fmt.Arg.int s, fmt.Arg.str p]
      = some (String.mk
          ("<!DOCTYPE html>\n<html>\n<head>\n</head>\n<body>\n<script>\n\tif (document.visibilityState === 'visible') \x7b\n\t\tdocument.cookie = '".data
            ++ n.data ++ "=".data ++ fmt.fmtInteger t
            ++ "' + '; max-age=".data ++ fmt.fmtInteger s
            ++ "; path=".data ++ p.data
            ++ "';\n\t\twindow.location.reload();\n\t\x7d\n</script>\n</body>\n</html>".data)) ∧
    (∀ (c : prefetchConfig) (now : time.Time),
      preClientPayload c now
        = String.mk
          ("<!DOCTYPE html>\n<html>\n<head>\n</head>\n<body>\n<script>\n\tif (document.visibilityState === 'visible') \x7b\n\t\tdocument.cookie = '".data
            ++ c.cookieName.data ++ "=".data ++ fmt.fmtInteger (time.UnixNano now)
            ++ "' + '; max-age=".data ++ fmt.fmtInteger (time.Duration.Seconds c.maxAge).toInt
            ++ "; path=".data ++ c.path.data
            ++ "';\n\t\twindow.location.reload();\n\t\x7d\n</script>\n</body>\n</html>".data)) ∧
    fmt.Sprintf preClientTmplt
        [fmt.Arg.str "c", fmt.Arg.int 1000, fmt.Arg.int 5, fmt.Arg.str "/x"]
      = some "<!DOCTYPE html>\n<html>\n<head>\n</head>\n<body>\n<script>\n\tif (document.visibilityState === 'visible') \x7b\n\t\tdocument.cookie = 'c=1000' + '; max-age=5; path=/x';\n\t\twindow.location.reload();\n\t\x7d\n</script>\n</body>\n</html>" := by
  refine ⟨?_, fun c now => ?_, ?_⟩
  · simp only [List.append_assoc]
    rfl
  · simp only [List.append_assoc]
    rfl
  · decide

/-- C10: at the max-age 16777216999999999 ns the number put on the page is
16777217, while that duration in whole seconds, truncated, is 16777216:
`Duration.Seconds` rounds the sum of the seconds and the fraction to the nearest
float64, which here is the next integer. -/
theorem maxAge_seconds_not_truncated :
    (time.Duration.Seconds 16777216999999999).toInt = 16777217 ∧
    Int.tdiv 16777216999999999 1000000000 = 16777216 ∧
    preClientPayload (prefetchConfigOf [WithMaxAge 16777216999999999]) 1000
      = "<!DOCTYPE html>\n<html>\n<head>\n</head>\n<body>\n<script>\n\tif (document.visibilityState === 'visible') \x7b\n\t\tdocument.cookie = 'block-prefetch=1000' + '; max-age=16777217; path=/';\n\t\twindow.location.reload();\n\t\x7d\n</script>\n</body>\n</html>" := by
  refine ⟨?_, ?_, ?_⟩ <;> decide

end block

/-! ## Float64 rounding and `Duration.Seconds` -/

namespace Float64

theorem roundHalfEven_le (a b : Nat) (hb : 0 < b) :
    2 * b * roundHalfEven a b ≤ 2 * a + b := by
  have hdm := Nat.div_add_mod a b
  have hr := Nat.mod_lt a hb
  have hq : 2 * b * (a / b) = 2 * (b * (a / b)) := by ring
  unfold roundHalfEven
  simp only
  split_ifs
  · omega
  · rw [Nat.mul_add, hq]; omega
  · omega
  · rw [Nat.mul_add, hq]; omega

theorem le_roundHalfEven (a b m : Nat) (hb : 0 < b) (h : m * b ≤ a) :
    m ≤ roundHalfEven a b := by
  have hq : m ≤ a / b := (Nat.le_div_iff_mul_le hb).2 h
  unfold roundHalfEven
  simp only
  split_ifs <;> omega

theorem log2Fuel_spec (fuel n : Nat) (hn : 0 < n) (hf : n ≤ fuel) :
    2 ^ log2Fuel fuel n ≤ n ∧ n < 2 ^ (log2Fuel fuel n + 1) := by
  induction fuel generalizing n with
  | zero => omega
  | succ fuel ih =>
    unfold log2Fuel
    by_cases h2 : n < 2
    · rw [if_pos h2]
      constructor <;> simp <;> omega
    · rw [if_neg h2]
      have hpos : 0 < n / 2 := Nat.div_pos (by omega) (by omega)
      have hle : n / 2 ≤ fuel := by omega
      obtain ⟨h1, h3⟩ := ih (n / 2) hpos hle
      constructor
      · rw [Nat.pow_succ]; omega
      · rw [Nat.pow_succ]; omega

theorem log2_spec (n : Nat) (hn : 0 < n) : 2 ^ log2 n ≤ n ∧ n < 2 ^ (log2 n + 1) :=
  log2Fuel_spec n n hn (Nat.le_refl n)


theorem ilog2_le (a d : Nat) (ha : 0 < a) (hd : 0 < d) :
    d * 2 ^ (ilog2 a d).toNat ≤ a * 2 ^ (-(ilog2 a d)).toNat := by
  obtain ⟨ha1, _⟩ := log2_spec a ha
  obtain ⟨_, hd2⟩ := log2_spec d hd
  unfold ilog2
  simp only
  split_ifs with hc
  · exact hc
  · by_cases hlt : log2 d < log2 a
    · have e1 : ((log2 a : Int) - (log2 d : Int) - 1).toNat = log2 a - log2 d - 1 := by omega
      have e2 : (-((log2 a : Int) - (log2 d : Int) - 1)).toNat = 0 := by omega
      rw [e1, e2, pow_zero, Nat.mul_one]
      have hpow : 2 ^ (log2 d + 1) * 2 ^ (log2 a - log2 d - 1) = 2 ^ log2 a := by
        rw [← pow_add]
        congr 1
        omega
      calc d * 2 ^ (log2 a - log2 d - 1)
          ≤ 2 ^ (log2 d + 1) * 2 ^ (log2 a - log2 d - 1) :=
            Nat.mul_le_mul_right _ (Nat.le_of_lt hd2)
        _ = 2 ^ log2 a := hpow
        _ ≤ a := ha1
    · have e1 : ((log2 a : Int) - (log2 d : Int) - 1).toNat = 0 := by omega
      have e2 : (-((log2 a : Int) - (log2 d : Int) - 1)).toNat = log2 d - log2 a + 1 := by omega
      rw [e1, e2, pow_zero, Nat.mul_one]
      have hpow : 2 ^ log2 a * 2 ^ (log2 d - log2 a + 1) = 2 ^ (log2 d + 1) := by
        rw [← pow_add]
        congr 1
        omega
      calc d ≤ 2 ^ (log2 d + 1) := Nat.le_of_lt hd2
        _ = 2 ^ log2 a * 2 ^ (log2 d - log2 a + 1) := hpow.symm
        _ ≤ a * 2 ^ (log2 d - log2 a + 1) := Nat.mul_le_mul_right _ ha1

theorem ilog2_lt (a d B : Nat) (ha : 0 < a) (hd : 0 < d) (h : a < d * 2 ^ B) :
    ilog2 a d < B := by
  by_contra hge
  have hle := ilog2_le a d ha hd
  have e1 : (-(ilog2 a d)).toNat = 0 := by omega
  have e2 : B ≤ (ilog2 a d).toNat := by omega
  rw [e1, pow_zero, Nat.mul_one] at hle
  have hmono : d * 2 ^ B ≤ d * 2 ^ (ilog2 a d).toNat :=
    Nat.mul_le_mul_left _ (Nat.pow_le_pow_right (by decide) e2)
  omega

/-- Below `2 ^ 53` the rounding step is at most one: a positive ratio below
`2 ^ B` is rounded to a multiple of `2 ^ (-down)` with `down + B ≥ 53`. -/
theorem ofRatio_pos (n : Int) (hn : 0 < n) (d : Nat) (hd : 0 < d) (B : Nat) (hB : B ≤ 53)
    (h : n.natAbs < d * 2 ^ B) :
    ∃ down : Nat, 53 ≤ down + B ∧
      ofRatio n d = ⟨(roundHalfEven (n.natAbs * 2 ^ down) d : Nat), down⟩ := by
  have ha : 0 < n.natAbs := by omega
  have hlt := ilog2_lt n.natAbs d B ha hd h
  have hup : (max (ilog2 n.natAbs d) (-1022) - 52).toNat = 0 := by omega
  refine ⟨(52 - max (ilog2 n.natAbs d) (-1022)).toNat, by omega, ?_⟩
  have hne : n ≠ 0 := by omega
  unfold ofRatio
  rw [if_neg hne]
  simp only [hup, pow_zero, Nat.mul_one, Int.sign_eq_one_of_pos hn, Int.one_mul]


/-- What rounding does to a positive ratio below `2 ^ B`, `B ≤ 53`: the result
is non-negative with at least `53 - B` fraction bits, exceeds the ratio by at
most half a unit of its last place, and is not below any natural number that the
ratio is not below. -/
theorem ofRatio_bounds (n : Int) (hn : 0 < n) (d : Nat) (hd : 0 < d) (B : Nat) (hB : B ≤ 53)
    (h : (n : ℚ) < d * 2 ^ B) :
    0 ≤ (ofRatio n d).num ∧ 53 ≤ (ofRatio n d).scale + B ∧
    toRat (ofRatio n d) ≤ (n : ℚ) / d + 1 / 2 ^ ((ofRatio n d).scale + 1) ∧
    ∀ M : Nat, (M : ℚ) ≤ (n : ℚ) / d → (M : ℚ) ≤ toRat (ofRatio n d) := by
  have hcast : ((n.natAbs : Nat) : ℚ) = (n : ℚ) := by
    have hi : ((n.natAbs : Nat) : Int) = n := Int.natAbs_of_nonneg (le_of_lt hn)
    calc ((n.natAbs : Nat) : ℚ) = (((n.natAbs : Nat) : Int) : ℚ) := (Int.cast_natCast _).symm
      _ = (n : ℚ) := by rw [hi]
  have hnat : n.natAbs < d * 2 ^ B := by
    have : ((n.natAbs : Nat) : ℚ) < ((d * 2 ^ B : Nat) : ℚ) := by
      rw [hcast]; push_cast; exact h
    exact_mod_cast this
  obtain ⟨down, hdown, heq⟩ := ofRatio_pos n hn d hd B hB hnat
  rw [heq]
  have hdq : (0 : ℚ) < d := by exact_mod_cast hd
  have hpow : (0 : ℚ) < 2 ^ down := by positivity
  refine ⟨Int.ofNat_nonneg _, hdown, ?_, ?_⟩
  · have hle := roundHalfEven_le (n.natAbs * 2 ^ down) d hd
    have hleq : (2 : ℚ) * d * (roundHalfEven (n.natAbs * 2 ^ down) d : Nat)
        ≤ 2 * ((n : ℚ) * 2 ^ down) + d := by
      rw [← hcast]
      exact_mod_cast hle
    simp only [toRat, Int.cast_natCast]
    rw [div_add_div _ _ (ne_of_gt hdq) (by positivity), div_le_div_iff₀ hpow (by positivity)]
    rw [pow_succ]
    nlinarith [hleq, hpow, hdq]
  · intro M hM
    have hMd : M * d ≤ n.natAbs := by
      have : ((M * d : Nat) : ℚ) ≤ ((n.natAbs : Nat) : ℚ) := by
        rw [hcast]; push_cast
        exact (le_div_iff₀ hdq).1 hM
      exact_mod_cast this
    have hM2 : M * 2 ^ down * d ≤ n.natAbs * 2 ^ down := by
      calc M * 2 ^ down * d = M * d * 2 ^ down := by ring
        _ ≤ n.natAbs * 2 ^ down := Nat.mul_le_mul_right _ hMd
    have hr := le_roundHalfEven (n.natAbs * 2 ^ down) d (M * 2 ^ down) hd hM2
    simp only [toRat, Int.cast_natCast]
    rw [le_div_iff₀ hpow]
    exact_mod_cast hr


theorem ofRatio_zero (d : Nat) : ofRatio 0 d = ⟨0, 0⟩ := by
  simp [ofRatio]

/-- Integers below `2 ^ 53` convert exactly. -/
theorem ofInt_nat (x : Nat) (hx : x < 2 ^ 53) :
    0 ≤ (ofInt (x : Int)).num ∧ toRat (ofInt (x : Int)) = x := by
  rcases Nat.eq_zero_or_pos x with h0 | hpos
  · subst h0
    simp [ofInt, ofRatio_zero, toRat]
  · have hxq : ((x : Int) : ℚ) < ((1 : Nat) : ℚ) * 2 ^ 53 := by
      have : ((x : Nat) : ℚ) < ((2 ^ 53 : Nat) : ℚ) := by exact_mod_cast hx
      push_cast at this ⊢
      linarith
    obtain ⟨h1, _, _, _⟩ :=
      ofRatio_bounds (x : Int) (by exact_mod_cast hpos) 1 (by decide) 53 (le_refl _) hxq
    refine ⟨h1, ?_⟩
    have hexact : toRat (ofRatio (x : Int) 1) = x := by
      obtain ⟨down, _, heq⟩ := ofRatio_pos (x : Int) (by exact_mod_cast hpos) 1 (by decide) 53
        (le_refl _) (by simpa using hx)
      rw [heq]
      have hr : roundHalfEven ((x : Int).natAbs * 2 ^ down) 1 = x * 2 ^ down := by
        simp [roundHalfEven, Nat.mod_one]
      rw [hr]
      simp only [toRat]
      push_cast
      field_simp
    exact hexact

theorem div_eq (x y : Float64) (hy : 0 < y.num) :
    div x y = ofRatio (x.num * 2 ^ y.scale) (y.num.natAbs * 2 ^ x.scale) := by
  simp [div, Int.sign_eq_one_of_pos hy]

/-- The truncation of a non-negative value lying in `[M, M + 1)` is `M`. -/
theorem toInt_eq (y : Float64) (hy : 0 ≤ y.num) (M : Nat) (h1 : (M : ℚ) ≤ toRat y)
    (h2 : toRat y < M + 1) : toInt y = M := by
  have hpow : (0 : ℚ) < 2 ^ y.scale := by positivity
  have hpowi : (0 : Int) < 2 ^ y.scale := by positivity
  simp only [toRat] at h1 h2
  rw [le_div_iff₀ hpow] at h1
  rw [div_lt_iff₀ hpow] at h2
  have h1i : (M : Int) * 2 ^ y.scale ≤ y.num := by exact_mod_cast h1
  have h2i : y.num < ((M : Int) + 1) * 2 ^ y.scale := by exact_mod_cast h2
  unfold toInt
  rw [Int.tdiv_eq_ediv hy (le_of_lt hpowi)]
  apply le_antisymm
  · have := (Int.ediv_lt_iff_lt_mul hpowi).2 h2i
    omega
  · exact (Int.le_ediv_iff_mul_le hpowi).2 h1i


theorem add_ratio (x y : Float64) :
    ((x.num * 2 ^ y.scale + y.num * 2 ^ x.scale : Int) : ℚ) / ((2 ^ (x.scale + y.scale) : Nat) : ℚ)
      = toRat x + toRat y := by
  simp only [toRat]
  push_cast
  rw [pow_add]
  field_simp

theorem div_ratio (x y : Float64) (hy : 0 < y.num) :
    ((x.num * 2 ^ y.scale : Int) : ℚ) / ((y.num.natAbs * 2 ^ x.scale : Nat) : ℚ)
      = toRat x / toRat y := by
  have hi : ((y.num.natAbs : Nat) : Int) = y.num := Int.natAbs_of_nonneg (le_of_lt hy)
  have hcast : ((y.num.natAbs : Nat) : ℚ) = (y.num : ℚ) := by
    calc ((y.num.natAbs : Nat) : ℚ) = (((y.num.natAbs : Nat) : Int) : ℚ) :=
          (Int.cast_natCast _).symm
      _ = (y.num : ℚ) := by rw [hi]
  have hyq : (y.num : ℚ) ≠ 0 := by
    have : (0 : ℚ) < y.num := by exact_mod_cast hy
    exact ne_of_gt this
  simp only [toRat]
  push_cast
  rw [hcast]
  field_simp
  left
  ring

theorem toRat_nonneg (x : Float64) (h : 0 ≤ x.num) : 0 ≤ toRat x := by
  have : (0 : ℚ) ≤ x.num := by exact_mod_cast h
  exact div_nonneg this (by positivity)

end Float64

namespace time

/-- The number of whole seconds in a non-negative duration below `2 ^ 24` s is
what `int(d.Seconds())` gives. -/
theorem Seconds_toInt_nat (d : Nat) (hd : d < 2 ^ 24 * 1000000000) :
    (Duration.Seconds (d : Int)).toInt = ((d / 1000000000 : Nat) : Int) := by
  have hq : d / 1000000000 < 2 ^ 24 := by omega
  have hr : d % 1000000000 < 1000000000 := Nat.mod_lt _ (by decide)
  have hsec : Int.tdiv (d : Int) Second = ((d / 1000000000 : Nat) : Int) := rfl
  have hnsec : Int.tmod (d : Int) Second = ((d % 1000000000 : Nat) : Int) := rfl
  obtain ⟨hs0, hsv⟩ := Float64.ofInt_nat (d / 1000000000) (by omega)
  obtain ⟨ha0, hav⟩ := Float64.ofInt_nat (d % 1000000000) (by omega)
  have hb0 : 0 < (Float64.ofInt 1000000000).num := by decide
  have hbv : Float64.toRat (Float64.ofInt 1000000000) = 1000000000 := by
    have := (Float64.ofInt_nat 1000000000 (by decide)).2
    simpa using this
  unfold Duration.Seconds
  simp only [hsec, hnsec]
  generalize Float64.ofInt ((d / 1000000000 : Nat) : Int) = s at hs0 hsv
  generalize Float64.ofInt ((d % 1000000000 : Nat) : Int) = a at ha0 hav
  generalize Float64.ofInt 1000000000 = b at hb0 hbv
  -- the fraction
  have hfr : 0 ≤ (Float64.div a b).num ∧ 0 ≤ Float64.toRat (Float64.div a b) ∧
      Float64.toRat (Float64.div a b) ≤ 1 - 1 / 1000000000 + 1 / 2 ^ 54 := by
    rw [Float64.div_eq a b hb0]
    have hratio := Float64.div_ratio a b hb0
    rw [hav, hbv] at hratio
    have hD : 0 < b.num.natAbs * 2 ^ a.scale :=
      Nat.mul_pos (by omega) (by positivity)
    have hDq : (0 : ℚ) < ((b.num.natAbs * 2 ^ a.scale : Nat) : ℚ) := by exact_mod_cast hD
    have hN0 : 0 ≤ a.num * 2 ^ b.scale := Int.mul_nonneg ha0 (by positivity)
    have hrq : ((d % 1000000000 : Nat) : ℚ) ≤ 1000000000 - 1 := by
      have : d % 1000000000 + 1 ≤ 1000000000 := hr
      have h2 : ((d % 1000000000 + 1 : Nat) : ℚ) ≤ ((1000000000 : Nat) : ℚ) := by
        exact_mod_cast this
      push_cast at h2
      linarith
    rcases eq_or_lt_of_le hN0 with hz | hpos
    · rw [← hz, Float64.ofRatio_zero]
      refine ⟨le_refl _, by simp [Float64.toRat], ?_⟩
      simp only [Float64.toRat]
      norm_num
    · have hlt : ((a.num * 2 ^ b.scale : Int) : ℚ)
          < ((b.num.natAbs * 2 ^ a.scale : Nat) : ℚ) * 2 ^ 0 := by
        rw [pow_zero, mul_one, ← div_lt_one hDq, hratio]
        rw [div_lt_one (by norm_num)]
        linarith
      obtain ⟨h1, h2, h3, _⟩ := Float64.ofRatio_bounds _ hpos _ hD 0 (by decide) hlt
      refine ⟨h1, Float64.toRat_nonneg _ h1, ?_⟩
      rw [hratio] at h3
      have hulp : (1 : ℚ) / 2 ^ ((Float64.ofRatio (a.num * 2 ^ b.scale)
          (b.num.natAbs * 2 ^ a.scale)).scale + 1) ≤ 1 / 2 ^ 54 := by
        apply one_div_le_one_div_of_le (by positivity)
        exact pow_le_pow_right₀ (by norm_num) (by omega)
      have hdiv : ((d % 1000000000 : Nat) : ℚ) / 1000000000 ≤ 1 - 1 / 1000000000 := by
        rw [div_le_iff₀ (by norm_num)]
        linarith
      linarith
  obtain ⟨hf0, hfv0, hfv1⟩ := hfr
  generalize Float64.div a b = fr at hf0 hfv0 hfv1
  -- the sum
  have hratio := Float64.add_ratio s fr
  rw [hsv] at hratio
  have hX0 : 0 ≤ s.num * 2 ^ fr.scale + fr.num * 2 ^ s.scale :=
    Int.add_nonneg (Int.mul_nonneg hs0 (by positivity)) (Int.mul_nonneg hf0 (by positivity))
  have hD : 0 < 2 ^ (s.scale + fr.scale) := by positivity
  have hDq : (0 : ℚ) < ((2 ^ (s.scale + fr.scale) : Nat) : ℚ) := by exact_mod_cast hD
  have hqq : ((d / 1000000000 : Nat) : ℚ) ≤ 2 ^ 24 - 1 := by
    have : d / 1000000000 + 1 ≤ 2 ^ 24 := hq
    have h2 : ((d / 1000000000 + 1 : Nat) : ℚ) ≤ ((2 ^ 24 : Nat) : ℚ) := by exact_mod_cast this
    push_cast at h2
    linarith
  have hq0 : (0 : ℚ) ≤ ((d / 1000000000 : Nat) : ℚ) := Nat.cast_nonneg _
  unfold Float64.add
  rcases eq_or_lt_of_le hX0 with hz | hpos
  · rw [← hz, Float64.ofRatio_zero]
    rw [← hz] at hratio
    have hsum : ((d / 1000000000 : Nat) : ℚ) + Float64.toRat fr = 0 := by
      rw [← hratio]; simp
    have hzero : ((d / 1000000000 : Nat) : ℚ) = 0 := by linarith
    have hz0 : d / 1000000000 = 0 := by exact_mod_cast hzero
    rw [hz0]
    rfl
  · have hlt : ((s.num * 2 ^ fr.scale + fr.num * 2 ^ s.scale : Int) : ℚ)
        < ((2 ^ (s.scale + fr.scale) : Nat) : ℚ) * 2 ^ 24 := by
      rw [← div_lt_iff₀' hDq, hratio]
      have : (1 : ℚ) - 1 / 1000000000 + 1 / 2 ^ 54 < 1 := by norm_num
      linarith
    obtain ⟨h1, h2, h3, h4⟩ := Float64.ofRatio_bounds _ hpos _ hD 24 (by decide) hlt
    rw [hratio] at h3 h4
    have hlow := h4 (d / 1000000000) (by linarith)
    have hulp : (1 : ℚ) / 2 ^ ((Float64.ofRatio (s.num * 2 ^ fr.scale + fr.num * 2 ^ s.scale)
        (2 ^ (s.scale + fr.scale))).scale + 1) ≤ 1 / 2 ^ 30 := by
      apply one_div_le_one_div_of_le (by positivity)
      exact pow_le_pow_right₀ (by norm_num) (by omega)
    have hnum : (1 : ℚ) - 1 / 1000000000 + 1 / 2 ^ 54 + 1 / 2 ^ 30 < 1 := by norm_num
    exact Float64.toInt_eq _ h1 _ hlow (by linarith)

end time

namespace Float64

theorem ofRatio_neg (n : Int) (d : Nat) :
    ofRatio (-n) d = ⟨-(ofRatio n d).num, (ofRatio n d).scale⟩ := by
  unfold ofRatio
  by_cases h : n = 0
  · simp [h]
  · have h2 : ¬ -n = 0 := by omega
    simp only [if_neg h, if_neg h2, Int.natAbs_neg, Int.sign_neg, Int.neg_mul]

theorem add_neg (x y : Float64) :
    add ⟨-x.num, x.scale⟩ ⟨-y.num, y.scale⟩ = ⟨-(add x y).num, (add x y).scale⟩ := by
  unfold add
  simp only
  rw [← ofRatio_neg]
  congr 1
  ring

theorem div_neg (x y : Float64) :
    div ⟨-x.num, x.scale⟩ y = ⟨-(div x y).num, (div x y).scale⟩ := by
  unfold div
  simp only
  rw [← ofRatio_neg]
  congr 1
  ring

theorem toInt_neg (x : Float64) : toInt ⟨-x.num, x.scale⟩ = -toInt x := by
  simp [toInt, Int.neg_tdiv]

end Float64

namespace time

theorem Seconds_neg (d : Int) :
    Duration.Seconds (-d) = ⟨-(Duration.Seconds d).num, (Duration.Seconds d).scale⟩ := by
  have hmod : Int.tmod (-d) Second = -Int.tmod d Second := by
    rw [Int.tmod_def, Int.tmod_def, Int.neg_tdiv]
    ring
  unfold Duration.Seconds
  simp only [Int.neg_tdiv, hmod, Float64.ofInt, Float64.ofRatio_neg, Float64.div_neg,
    Float64.add_neg]

/-- For every duration of magnitude below `2 ^ 24` seconds, `int(d.Seconds())` is
the duration in whole seconds, truncated towards zero. -/
theorem Seconds_toInt (d : Int) (h1 : -(2 ^ 24 * 1000000000) < d)
    (h2 : d < 2 ^ 24 * 1000000000) :
    (Duration.Seconds d).toInt = Int.tdiv d 1000000000 := by
  rcases le_or_lt 0 d with hd | hd
  · obtain ⟨k, rfl⟩ := Int.eq_ofNat_of_zero_le hd
    rw [Seconds_toInt_nat k (by omega)]
    rfl
  · obtain ⟨k, hk⟩ := Int.eq_ofNat_of_zero_le (show 0 ≤ -d by omega)
    have hd2 : d = -(k : Int) := by omega
    subst hd2
    rw [Seconds_neg, Float64.toInt_neg, Seconds_toInt_nat k (by omega), Int.neg_tdiv]
    rfl

end time

/-! ## Prefetch: the default and the configured max-age -/

namespace block

open http

/-- C11: with no option at all the max-age the guard uses is 1 nanosecond, not
one second: a cookie whose timestamp is 2 ns old already passes the guard. -/
theorem default_maxAge_is_one_nanosecond :
    (prefetchConfigOf []).maxAge = 1 ∧
    (prefetchConfigOf []).maxAge ≠ time.Second ∧
    ((Prefetch (Handler.supplied "next") []).ServeHTTP
        ⟨[], [⟨"block-prefetch", "1000"⟩]⟩ (fun _ => 1002)).1
      = [Call.ServeHTTP "next" ⟨[], [⟨"block-prefetch", "1000"⟩]⟩] := by
  refine ⟨rfl, by decide, by decide⟩

/-- C12: `WithMaxAge` stores the duration it is given, whatever it is: with
`WithMaxAge(0)` the max-age in use is 0, below one second, and a cookie whose
timestamp is 1 ns old passes the guard. -/
theorem WithMaxAge_not_clamped :
    (∀ (o : List PrefetchOption) (d : time.Duration),
      (prefetchConfigOf (o ++ [WithMaxAge d])).maxAge = d) ∧
    (prefetchConfigOf [WithMaxAge 0]).maxAge = 0 ∧
    (prefetchConfigOf [WithMaxAge 0]).maxAge < time.Second ∧
    ((Prefetch (Handler.supplied "next") [WithMaxAge 0]).ServeHTTP
        ⟨[], [⟨"block-prefetch", "1000"⟩]⟩ (fun _ => 1001)).1
      = [Call.ServeHTTP "next" ⟨[], [⟨"block-prefetch", "1000"⟩]⟩] := by
  refine ⟨fun o d => ?_, rfl, by decide, by decide⟩
  simp [prefetchConfigOf, List.foldl_append, WithMaxAge]

end block

/-! ## Bots: delegation and the bot-handler option -/

namespace block

open http

theorem botsConfigOf_snoc {H : Type} (o : List (BotsOption H)) (h : Handler H) :
    (botsConfigOf (o ++ [WithBotHandler h])).botHandler = h := by
  simp [botsConfigOf, List.foldl_append, WithBotHandler]

theorem Bots_cases {H : Type} (next : Handler H) (o : List (BotsOption H))
    (r : Request) (k : time.Clock) :
    (Bots next o).ServeHTTP r k = (botsConfigOf o).botHandler.ServeHTTP r k ∨
    (Bots next o).ServeHTTP r k = next.ServeHTTP r k := by
  cases hua : r.Header.index "User-Agent" with
  | none => exact Or.inr (by simp [Bots, Handler.ServeHTTP, hua])
  | some uaHeaders =>
    cases hb : isBot uaHeaders with
    | true => exact Or.inl (by simp [Bots, Handler.ServeHTTP, hua, hb])
    | false => exact Or.inr (by simp [Bots, Handler.ServeHTTP, hua, hb])

/-- C13: for every request the handler returned by `Bots` makes the calls of
the configured bot handler or those of the downstream handler, on the same
request and with no read of the clock; when both are supplied handlers its one
and only call is the serving of one of them: it sets no header and writes no
status and no body. -/
theorem Bots_only_delegates {H : Type} (next : Handler H) (o : List (BotsOption H))
    (r : Request) (k : time.Clock) :
    ((Bots next o).ServeHTTP r k = (botsConfigOf o).botHandler.ServeHTTP r k ∨
     (Bots next o).ServeHTTP r k = next.ServeHTTP r k) ∧
    ∀ n b : H,
      (Bots (Handler.supplied n) (o ++ [WithBotHandler (Handler.supplied b)])).ServeHTTP r k
          = ([Call.ServeHTTP b r], k) ∨
      (Bots (Handler.supplied n) (o ++ [WithBotHandler (Handler.supplied b)])).ServeHTTP r k
          = ([Call.ServeHTTP n r], k) := by
  refine ⟨Bots_cases next o r k, fun n b => ?_⟩
  rcases Bots_cases (Handler.supplied n) (o ++ [WithBotHandler (Handler.supplied b)]) r k
    with h | h
  · left
    rw [h, botsConfigOf_snoc]
    rfl
  · right
    rw [h]
    rfl

/-- C14: on a request classified as bot, `Bots` without options makes the one
call `WriteHeader(200)`, so no header is set and nothing is written to the
body; with one or more `WithBotHandler` options the configured handler is the
one of the last option, and its calls are the ones made. -/
theorem Bots_botHandler_option {H : Type} (next : Handler H) (hs : List (Handler H))
    (h : Handler H) (r : Request) (k : time.Clock) (uaHeaders : List String)
    (hua : r.Header.index "User-Agent" = some uaHeaders)
    (hbot : isBot uaHeaders = true) :
    (Bots next []).ServeHTTP r k = ([Call.WriteHeader 200], k) ∧
    (botsConfigOf ((hs ++ [h]).map WithBotHandler)).botHandler = h ∧
    (Bots next ((hs ++ [h]).map WithBotHandler)).ServeHTTP r k = h.ServeHTTP r k := by
  have hlast : (botsConfigOf ((hs ++ [h]).map WithBotHandler)).botHandler = h := by
    rw [List.map_append]
    exact botsConfigOf_snoc _ h
  refine ⟨?_, hlast, ?_⟩
  · simp [Bots, Handler.ServeHTTP, hua, hbot, botsConfigOf, botsDefault, StatusOK]
  · have hb : (Bots next ((hs ++ [h]).map WithBotHandler)).ServeHTTP r k
        = (botsConfigOf ((hs ++ [h]).map WithBotHandler)).botHandler.ServeHTTP r k := by
      simp [Bots, Handler.ServeHTTP, hua, hbot]
    rw [hb, hlast]

/-- C14 at the User-Agent "Googlebot/2.1": the default answers 200 with nothing
else, and of two `WithBotHandler` options the second is the one served. -/
theorem Bots_botHandler_option_witness :
    (Bots (Handler.supplied "next") []).ServeHTTP
        ⟨[("User-Agent", ["Googlebot/2.1"])], []⟩ (fun _ => 0)
      = ([Call.WriteHeader 200], fun _ => 0) ∧
    (Bots (Handler.supplied "next")
        [WithBotHandler (Handler.supplied "first"),
          WithBotHandler (Handler.supplied "second")]).ServeHTTP
        ⟨[("User-Agent", ["Googlebot/2.1"])], []⟩ (fun _ => 0)
      = ([Call.ServeHTTP "second" ⟨[("User-Agent", ["Googlebot/2.1"])], []⟩], fun _ => 0) :=
  ⟨(Bots_botHandler_option (Handler.supplied "next") [Handler.supplied "first"]
      (Handler.supplied "second") ⟨[("User-Agent", ["Googlebot/2.1"])], []⟩ (fun _ => 0)
      ["Googlebot/2.1"] rfl (by decide)).1,
   (Bots_botHandler_option (Handler.supplied "next") [Handler.supplied "first"]
      (Handler.supplied "second") ⟨[("User-Agent", ["Googlebot/2.1"])], []⟩ (fun _ => 0)
      ["Googlebot/2.1"] rfl (by decide)).2.2⟩

/-! ## Prefetch: the no-cache header -/

theorem writePreClient_cacheControl {H : Type} (c : prefetchConfig) (k : time.Clock)
    (v : String) :
    Call.HeaderSet "Cache-Control" v ∈ (writePreClient (H := H) c k).1 ↔
      c.noCache = true ∧ v = "no-cache, no-store, must-revalidate" := by
  cases hn : c.noCache <;> simp [writePreClient, hn]

/-- C16: on the confirmation page path the handler sets Cache-Control, to
no-cache, no-store, must-revalidate, exactly when the no-cache field of the
final configuration is true; under the default configuration it is false. -/
theorem Prefetch_noCache_header {H : Type} (next : Handler H) (o : List PrefetchOption)
    (r : Request) (k : time.Clock)
    (hscope : applyBlock (prefetchConfigOf o) (r.Header.Get "User-Agent") = true)
    (hinv : (∃ e, r.Cookie (prefetchConfigOf o).cookieName = Except.error e) ∨
      (∃ ck e, r.Cookie (prefetchConfigOf o).cookieName = Except.ok ck ∧
        strconv.ParseInt ck.Value = Except.error e) ∨
      (∃ ck t, r.Cookie (prefetchConfigOf o).cookieName = Except.ok ck ∧
        strconv.ParseInt ck.Value = Except.ok t ∧
        ¬ (prefetchConfigOf o).maxAge < (time.Since (time.Unix 0 t) k).1)) :
    (Call.HeaderSet "Cache-Control" "no-cache, no-store, must-revalidate"
        ∈ ((Prefetch next o).ServeHTTP r k).1 ↔ (prefetchConfigOf o).noCache = true) ∧
    (∀ v : String, Call.HeaderSet "Cache-Control" v ∈ ((Prefetch next o).ServeHTTP r k).1 →
        v = "no-cache, no-store, must-revalidate") ∧
    (prefetchConfigOf []).noCache = false ∧
    (∀ (p : List PrefetchOption) (b : Bool),
        (prefetchConfigOf (p ++ [WithNoCache b])).noCache = b) := by
  have hpage : ∃ k1, (Prefetch next o).ServeHTTP r k = writePreClient (prefetchConfigOf o) k1 := by
    rcases hinv with ⟨e, hck⟩ | ⟨ck, e, hck, hp⟩ | ⟨ck, t, hck, hp, hage⟩
    · exact ⟨k, Prefetch_no_cookie next o r k hscope e hck⟩
    · exact ⟨k, Prefetch_unparsable next o r k hscope ck hck e hp⟩
    · exact ⟨(time.Now k).2, Prefetch_young next o r k hscope ck hck t hp hage⟩
  obtain ⟨k1, hk1⟩ := hpage
  rw [hk1]
  refine ⟨?_, fun v hv => ?_, rfl, fun p b => ?_⟩
  · rw [writePreClient_cacheControl]
    simp
  · exact ((writePreClient_cacheControl _ _ v).1 hv).2
  · simp [prefetchConfigOf, List.foldl_append, WithNoCache]

/-- C16 at a request without cookies: with `WithNoCache(true)` the header is
set, and without options it is not. -/
theorem Prefetch_noCache_header_witness :
    Call.HeaderSet "Cache-Control" "no-cache, no-store, must-revalidate"
      ∈ ((Prefetch (Handler.supplied "next") [WithNoCache true]).ServeHTTP ⟨[], []⟩
          (fun _ => 0)).1 ∧
    Call.HeaderSet "Cache-Control" "no-cache, no-store, must-revalidate"
      ∉ ((Prefetch (Handler.supplied "next") []).ServeHTTP ⟨[], []⟩ (fun _ => 0)).1 :=
  ⟨(Prefetch_noCache_header (Handler.supplied "next") [WithNoCache true] ⟨[], []⟩ (fun _ => 0)
      rfl (Or.inl ⟨Error.ErrNoCookie, rfl⟩)).1.2 rfl,
   fun hmem => Bool.noConfusion
    ((Prefetch_noCache_header (Handler.supplied "next") [] ⟨[], []⟩ (fun _ => 0)
      rfl (Or.inl ⟨Error.ErrNoCookie, rfl⟩)).1.1 hmem)⟩

end block

/-! ## Prefetch: only the first User-Agent value counts -/

namespace block

open http

theorem Header_Get_of_index (h : Header) (key v : String) (vs : List String)
    (hi : h.index key = some (v :: vs)) : h.Get key = v := by
  simp [Header.Get, hi]

theorem Cookie_congr (r r1 : Request) (name : String) (hc : r1.cookies = r.cookies) :
    r1.Cookie name = r.Cookie name := by
  simp [Request.Cookie, hc]

theorem isBot_cons (v : String) (vs : List String) :
    isBot (v :: vs) = (isBot [v] || isBot vs) := by
  simp [isBot]

/-- C18: the scope test of `Prefetch` reads the first User-Agent value only.
Two requests with the same cookies whose User-Agent lists start with the same
value get the same outcome from the same clock: both the same confirmation
page, or both the downstream handler, each on its own request. `isBot`, on the
contrary, looks at every value. -/
theorem Prefetch_first_userAgent {H : Type} (next : Handler H) (o : List PrefetchOption)
    (r r1 : Request) (k : time.Clock) (v : String) (vs vs1 : List String)
    (hr : r.Header.index "User-Agent" = some (v :: vs))
    (hr1 : r1.Header.index "User-Agent" = some (v :: vs1))
    (hc : r1.cookies = r.cookies) :
    ((∃ k1, (Prefetch next o).ServeHTTP r k = writePreClient (prefetchConfigOf o) k1 ∧
        (Prefetch next o).ServeHTTP r1 k = writePreClient (prefetchConfigOf o) k1) ∨
     (∃ k1, (Prefetch next o).ServeHTTP r k = next.ServeHTTP r k1 ∧
        (Prefetch next o).ServeHTTP r1 k = next.ServeHTTP r1 k1)) ∧
    (applyBlock (prefetchConfigOf o) v = false →
        (Prefetch next o).ServeHTTP r k = next.ServeHTTP r k) ∧
    isBot (v :: vs) = (isBot [v] || isBot vs) := by
  have hg : r.Header.Get "User-Agent" = v := Header_Get_of_index _ _ _ _ hr
  have hg1 : r1.Header.Get "User-Agent" = v := Header_Get_of_index _ _ _ _ hr1
  have hck : r1.Cookie (prefetchConfigOf o).cookieName = r.Cookie (prefetchConfigOf o).cookieName :=
    Cookie_congr r r1 _ hc
  refine ⟨?_, fun hout => Prefetch_out_of_scope next o r k (by rw [hg]; exact hout),
    isBot_cons v vs⟩
  cases hs : applyBlock (prefetchConfigOf o) v with
  | false =>
    exact Or.inr ⟨k, Prefetch_out_of_scope next o r k (by rw [hg]; exact hs),
      Prefetch_out_of_scope next o r1 k (by rw [hg1]; exact hs)⟩
  | true =>
    have hs0 : applyBlock (prefetchConfigOf o) (r.Header.Get "User-Agent") = true := by
      rw [hg]; exact hs
    have hs1 : applyBlock (prefetchConfigOf o) (r1.Header.Get "User-Agent") = true := by
      rw [hg1]; exact hs
    cases hcookie : r.Cookie (prefetchConfigOf o).cookieName with
    | error e =>
      exact Or.inl ⟨k, Prefetch_no_cookie next o r k hs0 e hcookie,
        Prefetch_no_cookie next o r1 k hs1 e (hck.trans hcookie)⟩
    | ok ck =>
      cases hp : strconv.ParseInt ck.Value with
      | error e =>
        exact Or.inl ⟨k, Prefetch_unparsable next o r k hs0 ck hcookie e hp,
          Prefetch_unparsable next o r1 k hs1 ck (hck.trans hcookie) e hp⟩
      | ok t =>
        by_cases hage : (prefetchConfigOf o).maxAge < (time.Since (time.Unix 0 t) k).1
        · exact Or.inr ⟨(time.Now k).2, Prefetch_old next o r k hs0 ck hcookie t hp hage,
            Prefetch_old next o r1 k hs1 ck (hck.trans hcookie) t hp hage⟩
        · exact Or.inl ⟨(time.Now k).2, Prefetch_young next o r k hs0 ck hcookie t hp hage,
            Prefetch_young next o r1 k hs1 ck (hck.trans hcookie) t hp hage⟩

/-- C18 with scope ["Chrome"] and the User-Agent values "Safari/1.0",
"Chrome/100": the request is handed to the downstream handler with no cookie
check, although its second value contains "Chrome". -/
theorem Prefetch_first_userAgent_witness :
    (Prefetch (Handler.supplied "next") [WithUserAgent ["Chrome"]]).ServeHTTP
        ⟨[("User-Agent", ["Safari/1.0", "Chrome/100"])], []⟩ (fun _ => 0)
      = (Handler.supplied "next").ServeHTTP
        ⟨[("User-Agent", ["Safari/1.0", "Chrome/100"])], []⟩ (fun _ => 0) :=
  (Prefetch_first_userAgent (Handler.supplied "next") [WithUserAgent ["Chrome"]]
    ⟨[("User-Agent", ["Safari/1.0", "Chrome/100"])], []⟩
    ⟨[("User-Agent", ["Safari/1.0"])], []⟩ (fun _ => 0) "Safari/1.0" ["Chrome/100"] []
    rfl rfl rfl).2.1 (by decide)

/-! ## Prefetch: validity over time and over the max-age -/

theorem time_Sub_mono (t t1 u : Int) (h : t ≤ t1) : time.Sub t u ≤ time.Sub t1 u := by
  rw [time_Sub_eq_clamp, time_Sub_eq_clamp]
  exact max_le_max (le_refl _) (min_le_min (le_refl _) (Int.sub_le_sub_right h u))

/-- C19: a cookie valid at one clock reading is valid at every later reading,
and a cookie valid under one max-age is valid under every smaller one; `Time.Sub`
saturates, and the saturated difference is still monotone in the clock reading.
For an in-scope request this means that a request handed to the downstream
handler is handed to it again at every later reading. -/
theorem cookieIsValid_monotone {H : Type} (next : Handler H) (o : List PrefetchOption)
    (r : Request) (cookie : Option Cookie) (k k1 : time.Clock)
    (hlater : k 0 ≤ k1 0) :
    ((cookieIsValid (prefetchConfigOf o) cookie k).1 = true →
        (cookieIsValid (prefetchConfigOf o) cookie k1).1 = true) ∧
    (∀ m : time.Duration, m ≤ (prefetchConfigOf o).maxAge →
        (cookieIsValid (prefetchConfigOf o) cookie k).1 = true →
        (cookieIsValid (prefetchConfigOf (o ++ [WithMaxAge m])) cookie k).1 = true) ∧
    (applyBlock (prefetchConfigOf o) (r.Header.Get "User-Agent") = true →
      (∃ ck t, r.Cookie (prefetchConfigOf o).cookieName = Except.ok ck ∧
          strconv.ParseInt ck.Value = Except.ok t ∧
          (prefetchConfigOf o).maxAge < (time.Since (time.Unix 0 t) k).1) →
      (Prefetch next o).ServeHTTP r k1 = next.ServeHTTP r (time.Now k1).2) := by
  have hmono : ∀ t : Int, (time.Since (time.Unix 0 t) k).1 ≤ (time.Since (time.Unix 0 t) k1).1 := by
    intro t
    exact time_Sub_mono (k 0) (k1 0) (time.Unix 0 t) hlater
  refine ⟨?_, ?_, ?_⟩
  · rw [cookieIsValid_iff, cookieIsValid_iff]
    rintro ⟨ck, t, h1, h2, h3⟩
    exact ⟨ck, t, h1, h2, lt_of_lt_of_le h3 (hmono t)⟩
  · intro m hm
    rw [cookieIsValid_iff, cookieIsValid_iff]
    rintro ⟨ck, t, h1, h2, h3⟩
    refine ⟨ck, t, h1, h2, ?_⟩
    have hcfg : (prefetchConfigOf (o ++ [WithMaxAge m])).maxAge = m := by
      simp [prefetchConfigOf, List.foldl_append, WithMaxAge]
    rw [hcfg]
    exact lt_of_le_of_lt hm h3
  · rintro hscope ⟨ck, t, hck, hp, hage⟩
    exact Prefetch_old next o r k1 hscope ck hck t hp (lt_of_lt_of_le hage (hmono t))

/-- C19 where the subtraction saturates: the cookie value is the smallest
int64, the elapsed time is the largest duration at the readings 0 and 5, and the
cookie is valid at both under a max-age of one second. -/
theorem cookieIsValid_monotone_witness :
    (time.Since (time.Unix 0 (-9223372036854775808)) (fun _ => 0)).1 = time.maxDuration ∧
    (cookieIsValid (prefetchConfigOf [WithMaxAge time.Second])
        (some ⟨"block-prefetch", "-9223372036854775808"⟩) (fun _ => 5)).1 = true :=
  ⟨by decide,
   (cookieIsValid_monotone (Handler.supplied "next") [WithMaxAge time.Second] ⟨[], []⟩
      (some ⟨"block-prefetch", "-9223372036854775808"⟩) (fun _ => 0) (fun _ => 5)
      (by decide)).1 (by decide)⟩

end block

/-! ## Prefetch: the default configuration -/

namespace block

open http

theorem one_lt_Sub_iff (now t : Int) : 1 < time.Sub now t ↔ 2 ≤ now - t := by
  rw [time_Sub_eq_clamp]
  unfold time.minDuration time.maxDuration time.Duration
  simp only [max_def, min_def]
  split_ifs <;> omega

/-- C20: without options the max-age is 1 ns, the cookie is "block-prefetch"
and the path is "/"; the confirmation page then sets block-prefetch to the clock
reading with max-age=0 and path=/; and a cookie whose value parses to `t` is
valid exactly when the clock reading is at least `t + 2`. -/
theorem Prefetch_default_config (ck : Cookie) (t : Int) (k : time.Clock) (now : time.Time)
    (hparse : strconv.ParseInt ck.Value = Except.ok t) :
    (prefetchConfigOf []).maxAge = 1 ∧
    (prefetchConfigOf []).cookieName = "block-prefetch" ∧
    (prefetchConfigOf []).path = "/" ∧
    (time.Duration.Seconds (prefetchConfigOf []).maxAge).toInt = 0 ∧
    preClientPayload (prefetchConfigOf []) now
      = String.mk
          ("<!DOCTYPE html>\n<html>\n<head>\n</head>\n<body>\n<script>\n\tif (document.visibilityState === 'visible') \x7b\n\t\tdocument.cookie = 'block-prefetch=".data
            ++ fmt.fmtInteger (time.UnixNano now)
            ++ "' + '; max-age=0; path=/';\n\t\twindow.location.reload();\n\t\x7d\n</script>\n</body>\n</html>".data) ∧
    ((cookieIsValid (prefetchConfigOf []) (some ck) k).1 = true ↔ 2 ≤ k 0 - t) := by
  refine ⟨rfl, rfl, rfl, by decide, ?_, ?_⟩
  · simp only [List.append_assoc]
    rfl
  · have hone : (prefetchConfigOf []).maxAge = 1 := rfl
    simp only [cookieIsValid, hparse, decide_eq_true_eq, hone, time.Since, time.Now]
    have hu : time.Unix 0 t = t := by
      show (0 : Int) * 1000000000 + t = t
      omega
    rw [hu]
    exact one_lt_Sub_iff (k 0) t

/-- C20 at the cookie value "1000": valid at the clock reading 1002, not valid
at 1001. -/
theorem Prefetch_default_config_witness :
    (cookieIsValid (prefetchConfigOf []) (some ⟨"block-prefetch", "1000"⟩)
        (fun _ => 1002)).1 = true ∧
    ¬ (cookieIsValid (prefetchConfigOf []) (some ⟨"block-prefetch", "1000"⟩)
        (fun _ => 1001)).1 = true :=
  ⟨(Prefetch_default_config ⟨"block-prefetch", "1000"⟩ 1000 (fun _ => 1002) 0 rfl).2.2.2.2.2.2
      (by decide),
   fun h => absurd
    ((Prefetch_default_config ⟨"block-prefetch", "1000"⟩ 1000 (fun _ => 1001) 0 rfl).2.2.2.2.2.1
      h) (by decide)⟩

end block

/-! ## Prefetch: how the options build the configuration -/

namespace block

open http

theorem getLast?_cons_getD {α : Type} (a d : α) (xs : List α) :
    ((a :: xs).getLast?).getD d = (xs.getLast?).getD a := by
  cases xs with
  | nil => rfl
  | cons x xs => simp [List.getLast?_cons_cons, List.getLast?_eq_getLast]

theorem foldl_options_fields (l : List PrefetchOptionExpr) (c0 : prefetchConfig) :
    ((l.map PrefetchOptionExpr.eval).foldl (fun c opt => opt c) c0).maxAge
      = ((l.filterMap PrefetchOptionExpr.maxAgeArg).getLast?).getD c0.maxAge ∧
    ((l.map PrefetchOptionExpr.eval).foldl (fun c opt => opt c) c0).cookieName
      = ((l.filterMap PrefetchOptionExpr.cookieNameArg).getLast?).getD c0.cookieName ∧
    ((l.map PrefetchOptionExpr.eval).foldl (fun c opt => opt c) c0).path
      = ((l.filterMap PrefetchOptionExpr.pathArg).getLast?).getD c0.path ∧
    ((l.map PrefetchOptionExpr.eval).foldl (fun c opt => opt c) c0).noCache
      = ((l.filterMap PrefetchOptionExpr.noCacheArg).getLast?).getD c0.noCache ∧
    ((l.map PrefetchOptionExpr.eval).foldl (fun c opt => opt c) c0).userAgents
      = c0.userAgents ++ (l.filterMap PrefetchOptionExpr.userAgentArg).flatten := by
  induction l generalizing c0 with
  | nil => simp
  | cons e l ih =>
    obtain ⟨h1, h2, h3, h4, h5⟩ := ih (e.eval c0)
    simp only [List.map_cons, List.foldl_cons]
    rw [h1, h2, h3, h4, h5]
    cases e <;>
      simp [PrefetchOptionExpr.eval, PrefetchOptionExpr.maxAgeArg,
        PrefetchOptionExpr.cookieNameArg, PrefetchOptionExpr.pathArg,
        PrefetchOptionExpr.noCacheArg, PrefetchOptionExpr.userAgentArg,
        WithMaxAge, WithCookieName, WithUserAgent, WithPath, WithNoCache,
        getLast?_cons_getD]

/-- C15: for every sequence of options written with the five constructors, the
configuration in effect has, for max-age, cookie name, path and no-cache, the
argument of the last option of that kind, or the default when there is none,
and as its scope list the concatenation, in order, of the arguments of all the
`WithUserAgent` options; an option appended to any sequence changes its own
field and no other. -/
theorem prefetchConfigOf_options (l : List PrefetchOptionExpr) :
    (prefetchConfigOf (l.map PrefetchOptionExpr.eval)).maxAge
      = ((l.filterMap PrefetchOptionExpr.maxAgeArg).getLast?).getD 1 ∧
    (prefetchConfigOf (l.map PrefetchOptionExpr.eval)).cookieName
      = ((l.filterMap PrefetchOptionExpr.cookieNameArg).getLast?).getD "block-prefetch" ∧
    (prefetchConfigOf (l.map PrefetchOptionExpr.eval)).path
      = ((l.filterMap PrefetchOptionExpr.pathArg).getLast?).getD "/" ∧
    (prefetchConfigOf (l.map PrefetchOptionExpr.eval)).noCache
      = ((l.filterMap PrefetchOptionExpr.noCacheArg).getLast?).getD false ∧
    (prefetchConfigOf (l.map PrefetchOptionExpr.eval)).userAgents
      = (l.filterMap PrefetchOptionExpr.userAgentArg).flatten ∧
    (∀ (o : List PrefetchOption) (d : time.Duration),
      prefetchConfigOf (o ++ [WithMaxAge d]) = { prefetchConfigOf o with maxAge := d }) ∧
    (∀ (o : List PrefetchOption) (n : String),
      prefetchConfigOf (o ++ [WithCookieName n]) = { prefetchConfigOf o with cookieName := n }) ∧
    (∀ (o : List PrefetchOption) (p : String),
      prefetchConfigOf (o ++ [WithPath p]) = { prefetchConfigOf o with path := p }) ∧
    (∀ (o : List PrefetchOption) (b : Bool),
      prefetchConfigOf (o ++ [WithNoCache b]) = { prefetchConfigOf o with noCache := b }) ∧
    (∀ (o : List PrefetchOption) (ua : List String),
      prefetchConfigOf (o ++ [WithUserAgent ua])
        = { prefetchConfigOf o with userAgents := (prefetchConfigOf o).userAgents ++ ua }) := by
  obtain ⟨h1, h2, h3, h4, h5⟩ := foldl_options_fields l prefetchDefault
  refine ⟨h1, h2, h3, h4, ?_, ?_, ?_, ?_, ?_, ?_⟩
  · rw [prefetchConfigOf, h5]
    rfl
  all_goals
    intro o x
    simp [prefetchConfigOf, List.foldl_append, WithMaxAge, WithCookieName, WithPath,
      WithNoCache, WithUserAgent]

end block

/-! ## Slices on the heap -/

namespace runtime

theorem elems_length (s : Slice) (h : Heap) (n : Nat) (hs : s.OwnedFrom h n) :
    (s.elems h).length = s.len := by
  unfold Slice.OwnedFrom at hs
  unfold Slice.elems
  cases ha : s.array with
  | none =>
    rw [ha] at hs
    simp [hs.1]
  | some a =>
    rw [ha] at hs
    simp only [List.length_take]
    omega

/-- What `append` does: the result holds the old elements followed by the new
ones, its array is owned like the old one, and no array allocated before `n` is
touched. -/
theorem append_spec (grow : Nat → Nat → Nat) (hgrow : ∀ cap needed, needed ≤ grow cap needed)
    (s : Slice) (xs : List String) (h : Heap) (n : Nat)
    (hs : s.OwnedFrom h n) (hn : n ≤ h.length) :
    (append grow s xs h).1.OwnedFrom (append grow s xs h).2 n ∧
    (append grow s xs h).1.elems (append grow s xs h).2 = s.elems h ++ xs ∧
    h.length ≤ (append grow s xs h).2.length ∧
    ∀ i, i < n → (append grow s xs h).2[i]? = h[i]? := by
  have hlen := elems_length s h n hs
  unfold append
  by_cases hcap : s.len + xs.length ≤ s.cap
  · rw [if_pos hcap]
    cases ha : s.array with
    | none =>
      have hs0 := hs
      unfold Slice.OwnedFrom at hs0
      rw [ha] at hs0
      have hxs : xs = [] := by
        apply List.eq_nil_of_length_eq_zero
        omega
      dsimp only
      refine ⟨hs, ?_, le_refl _, ?_⟩
      · simp [hxs]
      · exact fun i _ => rfl
    | some a =>
      have hs0 := hs
      unfold Slice.OwnedFrom at hs0
      rw [ha] at hs0
      obtain ⟨h1, h2, h3, h4⟩ := hs0
      simp only
      have harr : ((h.set a (((h[a]?).getD []).take s.len ++ xs
          ++ ((h[a]?).getD []).drop (s.len + xs.length)))[a]?).getD []
          = ((h[a]?).getD []).take s.len ++ xs
            ++ ((h[a]?).getD []).drop (s.len + xs.length) := by
        rw [List.getElem?_set_self (by simpa using h2)]
        rfl
      refine ⟨?_, ?_, by simp, fun i hi => ?_⟩
      · unfold Slice.OwnedFrom
        simp only [ha]
        refine ⟨h1, by simpa using h2, hcap, ?_⟩
        rw [harr]
        simp only [List.length_append, List.length_take, List.length_drop]
        omega
      · unfold Slice.elems
        simp only [ha]
        rw [harr, List.append_assoc, List.take_append_eq_append_take]
        simp only [List.length_take]
        have e1 : min s.len ((h[a]?).getD []).length = s.len := by omega
        rw [e1, List.take_of_length_le (by simp)]
        have e2 : s.len + xs.length - s.len = xs.length := by omega
        rw [e2, List.take_append_eq_append_take, List.take_of_length_le (le_refl _)]
        simp
      · rw [List.getElem?_set_ne (by omega)]
  · rw [if_neg hcap]
    simp only
    refine ⟨?_, ?_, by simp, fun i hi => ?_⟩
    · unfold Slice.OwnedFrom
      simp only
      refine ⟨hn, by simp, hgrow _ _, ?_⟩
      rw [List.getElem?_append_right (le_refl _)]
      simp only [Nat.sub_self, List.getElem?_cons_zero, Option.getD_some, List.length_append,
        List.length_replicate, hlen]
      have := hgrow s.cap (s.len + xs.length)
      omega
    · unfold Slice.elems
      simp only
      rw [List.getElem?_append_right (le_refl _)]
      simp only [Nat.sub_self, List.getElem?_cons_zero, Option.getD_some]
      have hs' : (Slice.elems s h ++ xs).length = s.len + xs.length := by
        simp [hlen]
      have : Slice.elems s h = (match s.array with
          | none => []
          | some a => ((h[a]?).getD []).take s.len) := rfl
      rw [← this, List.take_append_of_le_length (by omega)]
      exact List.take_of_length_le (by omega)
    · rw [List.getElem?_append_left (by omega)]

end runtime

namespace runtime

theorem elems_congr (s : Slice) (h h1 : Heap) (n : Nat) (hs : s.OwnedFrom h n)
    (hframe : ∀ i, i < h.length → h1[i]? = h[i]?) : s.elems h1 = s.elems h := by
  unfold Slice.OwnedFrom at hs
  unfold Slice.elems
  cases ha : s.array with
  | none => rfl
  | some a =>
    rw [ha] at hs
    simp only
    rw [hframe a hs.2.1]

end runtime

/-! ## Prefetch: instances do not share their configuration -/

namespace block

open http

theorem run_spec (grow : Nat → Nat → Nat) (hgrow : ∀ cap needed, needed ≤ grow cap needed)
    (e : PrefetchOptionExpr) (c : prefetchConfigMem) (h : runtime.Heap) (n : Nat)
    (hs : c.userAgents.OwnedFrom h n) (hn : n ≤ h.length) :
    (e.run grow (c, h)).1.userAgents.OwnedFrom (e.run grow (c, h)).2 n ∧
    (e.run grow (c, h)).1.load (e.run grow (c, h)).2 = e.eval (c.load h) ∧
    h.length ≤ (e.run grow (c, h)).2.length ∧
    ∀ i, i < n → (e.run grow (c, h)).2[i]? = h[i]? := by
  cases e with
  | WithUserAgent ua =>
    obtain ⟨h1, h2, h3, h4⟩ := runtime.append_spec grow hgrow c.userAgents ua h n hs hn
    refine ⟨h1, ?_, h3, h4⟩
    simp only [PrefetchOptionExpr.run, prefetchConfigMem.load, PrefetchOptionExpr.eval,
      WithUserAgent, h2]
  | WithMaxAge d => exact ⟨hs, rfl, le_refl _, fun i _ => rfl⟩
  | WithCookieName s => exact ⟨hs, rfl, le_refl _, fun i _ => rfl⟩
  | WithPath s => exact ⟨hs, rfl, le_refl _, fun i _ => rfl⟩
  | WithNoCache b => exact ⟨hs, rfl, le_refl _, fun i _ => rfl⟩

theorem foldl_run_spec (grow : Nat → Nat → Nat)
    (hgrow : ∀ cap needed, needed ≤ grow cap needed)
    (o : List PrefetchOptionExpr) (c : prefetchConfigMem) (h : runtime.Heap) (n : Nat)
    (hs : c.userAgents.OwnedFrom h n) (hn : n ≤ h.length) :
    (o.foldl (fun st opt => opt.run grow st) (c, h)).1.userAgents.OwnedFrom
        (o.foldl (fun st opt => opt.run grow st) (c, h)).2 n ∧
    (o.foldl (fun st opt => opt.run grow st) (c, h)).1.load
        (o.foldl (fun st opt => opt.run grow st) (c, h)).2
      = (o.map PrefetchOptionExpr.eval).foldl (fun c opt => opt c) (c.load h) ∧
    h.length ≤ (o.foldl (fun st opt => opt.run grow st) (c, h)).2.length ∧
    ∀ i, i < n → (o.foldl (fun st opt => opt.run grow st) (c, h)).2[i]? = h[i]? := by
  induction o generalizing c h with
  | nil => exact ⟨hs, rfl, le_refl _, fun i _ => rfl⟩
  | cons e o ih =>
    obtain ⟨r1, r2, r3, r4⟩ := run_spec grow hgrow e c h n hs hn
    obtain ⟨i1, i2, i3, i4⟩ :=
      ih (e.run grow (c, h)).1 (e.run grow (c, h)).2 r1 (le_trans hn r3)
    simp only [List.foldl_cons, List.map_cons]
    refine ⟨i1, ?_, le_trans r3 i3, fun i hi => ?_⟩
    · rw [i2, r2]
    · rw [i4 i hi, r4 i hi]

/-- The set-up of `Prefetch` on the heap computes the configuration of the
embedding, owns the array of its scope list, and touches no array that was
allocated before. -/
theorem prefetchSetup_spec (grow : Nat → Nat → Nat)
    (hgrow : ∀ cap needed, needed ≤ grow cap needed)
    (o : List PrefetchOptionExpr) (h : runtime.Heap) :
    (prefetchSetup grow o h).1.userAgents.OwnedFrom (prefetchSetup grow o h).2 h.length ∧
    (prefetchSetup grow o h).1.load (prefetchSetup grow o h).2
      = prefetchConfigOf (o.map PrefetchOptionExpr.eval) ∧
    h.length ≤ (prefetchSetup grow o h).2.length ∧
    ∀ i, i < h.length → (prefetchSetup grow o h).2[i]? = h[i]? := by
  have hs : prefetchDefaultMem.userAgents.OwnedFrom h h.length := ⟨rfl, rfl⟩
  exact foldl_run_spec grow hgrow o prefetchDefaultMem h h.length hs (le_refl _)

theorem Prefetch_eq_prefetchHandler {H : Type} (next : Handler H) (o : List PrefetchOption) :
    Prefetch next o = prefetchHandler next (prefetchConfigOf o) := rfl

theorem Bots_botHandler_only {H : Type} (next : Handler H) (o1 o2 : List (BotsOption H))
    (hcfg : (botsConfigOf o1).botHandler = (botsConfigOf o2).botHandler)
    (r : Request) (k : time.Clock) :
    (Bots next o1).ServeHTTP r k = (Bots next o2).ServeHTTP r k := by
  simp only [Bots, Handler.ServeHTTP, hcfg]

end block

namespace block

open http

/-- C17: two instances of `Prefetch` set up one after the other from the same
options, on any heap and whatever capacities the runtime chooses, hold the same
configuration, the one of the embedding; setting up the second leaves the
configuration of the first, and every array allocated before, as they were; and
serving, which only reads the configuration, gives the same calls with either
instance for every request and clock. An instance of `Bots` holds one handler
and no heap data: its calls are determined by that handler, the downstream
handler and the request. -/
theorem Prefetch_instances_independent {H : Type} (grow : Nat → Nat → Nat)
    (hgrow : ∀ cap needed, needed ≤ grow cap needed)
    (next : Handler H) (o : List PrefetchOptionExpr)
    (h0 h1 h2 : runtime.Heap) (c1 c2 : prefetchConfigMem)
    (e1 : prefetchSetup grow o h0 = (c1, h1)) (e2 : prefetchSetup grow o h1 = (c2, h2))
    (r : Request) (k : time.Clock) :
    c1.load h1 = prefetchConfigOf (o.map PrefetchOptionExpr.eval) ∧
    c2.load h2 = prefetchConfigOf (o.map PrefetchOptionExpr.eval) ∧
    c1.load h2 = c1.load h1 ∧
    (∀ i, i < h0.length → h2[i]? = h0[i]?) ∧
    prefetchServe next c1 h1 r k = (Prefetch next (o.map PrefetchOptionExpr.eval)).ServeHTTP r k ∧
    prefetchServe next c1 h2 r k = prefetchServe next c1 h1 r k ∧
    prefetchServe next c2 h2 r k = prefetchServe next c1 h2 r k ∧
    (∀ bo1 bo2 : List (BotsOption H),
      (botsConfigOf bo1).botHandler = (botsConfigOf bo2).botHandler →
      (Bots next bo1).ServeHTTP r k = (Bots next bo2).ServeHTTP r k) := by
  obtain ⟨a1, a2, a3, a4⟩ := prefetchSetup_spec grow hgrow o h0
  obtain ⟨b1, b2, b3, b4⟩ := prefetchSetup_spec grow hgrow o h1
  rw [e1] at a1 a2 a3 a4
  rw [e2] at b1 b2 b3 b4
  simp only at a1 a2 a3 a4 b1 b2 b3 b4
  have hsame : c1.load h2 = c1.load h1 := by
    have helems : c1.userAgents.elems h2 = c1.userAgents.elems h1 :=
      runtime.elems_congr c1.userAgents h1 h2 h0.length a1 b4
    simp only [prefetchConfigMem.load, helems]
  refine ⟨a2, b2, hsame, fun i hi => ?_, ?_, ?_, ?_, ?_⟩
  · rw [b4 i (lt_of_lt_of_le hi a3), a4 i hi]
  · simp only [prefetchServe, a2, Prefetch_eq_prefetchHandler]
  · simp only [prefetchServe, hsame]
  · simp only [prefetchServe, hsame, a2, b2]
  · exact fun bo1 bo2 hcfg => Bots_botHandler_only next bo1 bo2 hcfg r k

/-- C17 with four `WithUserAgent` options on a heap that already holds an
array, the runtime doubling capacities: the fourth `append` of each set-up writes
in place into the array of the third, the two instances end with arrays 3 and 6,
and the first serves after the set-up of the second as the second does. -/
theorem Prefetch_instances_independent_witness :
    prefetchSetup (fun cap needed => max needed (2 * cap))
        [PrefetchOptionExpr.WithUserAgent ["a"], PrefetchOptionExpr.WithUserAgent ["b"],
          PrefetchOptionExpr.WithUserAgent ["c"], PrefetchOptionExpr.WithUserAgent ["d"]]
        [["x"]]
      = (⟨1, "block-prefetch", ⟨some 3, 4, 4⟩, "/", false⟩,
          [["x"], ["a"], ["a", "b"], ["a", "b", "c", "d"]]) ∧
    prefetchSetup (fun cap needed => max needed (2 * cap))
        [PrefetchOptionExpr.WithUserAgent ["a"], PrefetchOptionExpr.WithUserAgent ["b"],
          PrefetchOptionExpr.WithUserAgent ["c"], PrefetchOptionExpr.WithUserAgent ["d"]]
        [["x"], ["a"], ["a", "b"], ["a", "b", "c", "d"]]
      = (⟨1, "block-prefetch", ⟨some 6, 4, 4⟩, "/", false⟩,
          [["x"], ["a"], ["a", "b"], ["a", "b", "c", "d"],
            ["a"], ["a", "b"], ["a", "b", "c", "d"]]) ∧
    prefetchServe (Handler.supplied "next") ⟨1, "block-prefetch", ⟨some 6, 4, 4⟩, "/", false⟩
        [["x"], ["a"], ["a", "b"], ["a", "b", "c", "d"], ["a"], ["a", "b"], ["a", "b", "c", "d"]]
        ⟨[("User-Agent", ["abcd"])], []⟩ (fun _ => 0)
      = prefetchServe (Handler.supplied "next")
        ⟨1, "block-prefetch", ⟨some 3, 4, 4⟩, "/", false⟩
        [["x"], ["a"], ["a", "b"], ["a", "b", "c", "d"], ["a"], ["a", "b"], ["a", "b", "c", "d"]]
        ⟨[("User-Agent", ["abcd"])], []⟩ (fun _ => 0) :=
  ⟨by decide, by decide,
   (Prefetch_instances_independent (fun cap needed => max needed (2 * cap))
    (fun _ _ => le_max_left _ _) (Handler.supplied "next")
    [PrefetchOptionExpr.WithUserAgent ["a"], PrefetchOptionExpr.WithUserAgent ["b"],
      PrefetchOptionExpr.WithUserAgent ["c"], PrefetchOptionExpr.WithUserAgent ["d"]]
    [["x"]] [["x"], ["a"], ["a", "b"], ["a", "b", "c", "d"]]
    [["x"], ["a"], ["a", "b"], ["a", "b", "c", "d"], ["a"], ["a", "b"], ["a", "b", "c", "d"]]
    ⟨1, "block-prefetch", ⟨some 3, 4, 4⟩, "/", false⟩
    ⟨1, "block-prefetch", ⟨some 6, 4, 4⟩, "/", false⟩
    (by decide) (by decide) ⟨[("User-Agent", ["abcd"])], []⟩ (fun _ => 0)).2.2.2.2.2.2.1⟩

end block
